import Mathlib

/-!
Verification of the seo-canonical-check auditor.

A shallow embedding of `src/canonical.js` (URL normalizer, canonical rule
evaluator, audit orchestrator) together with theorems settling the frozen
claims about the program.

External collaborators (the WHATWG `URL` parser of Node, `fetch`, JSDOM's
`querySelectorAll`) are modelled explicitly: the URL parser as an
executable parser for hierarchical `scheme://host[:port]path[?query][#fragment]`
URLs with host/scheme lowercasing and default-port elision (the behaviour
the normalizer depends on); the network and the DOM as oracle functions
returning `Except`, a thrown exception being the `error` case.
-/

/-! ## Character and string utilities -/

/-- ASCII letter test. -/
def isAsciiAlpha (c : Char) : Bool :=
  ('a' ≤ c && c ≤ 'z') || ('A' ≤ c && c ≤ 'Z')

/-- ASCII digit test. -/
def isAsciiDigit (c : Char) : Bool :=
  '0' ≤ c && c ≤ '9'

/-- ASCII lowercasing of one character, the behaviour of
JavaScript's `toLowerCase` on the ASCII range. -/
def lowerChar (c : Char) : Char :=
  match c with
  | 'A' => 'a' | 'B' => 'b' | 'C' => 'c' | 'D' => 'd' | 'E' => 'e'
  | 'F' => 'f' | 'G' => 'g' | 'H' => 'h' | 'I' => 'i' | 'J' => 'j'
  | 'K' => 'k' | 'L' => 'l' | 'M' => 'm' | 'N' => 'n' | 'O' => 'o'
  | 'P' => 'p' | 'Q' => 'q' | 'R' => 'r' | 'S' => 's' | 'T' => 't'
  | 'U' => 'u' | 'V' => 'v' | 'W' => 'w' | 'X' => 'x' | 'Y' => 'y'
  | 'Z' => 'z' | other => other

/-- Model of `String.prototype.toLowerCase()`. -/
def toLowerStr (s : String) : String :=
  ⟨s.data.map lowerChar⟩

/-- Whitespace as stripped by `String.prototype.trim()`. -/
def isWs (c : Char) : Bool :=
  c = ' ' || c = '\t' || c = '\n' || c = '\r'

/-- Model of `String.prototype.trim()`: strip leading and trailing
whitespace. -/
def trimStr (s : String) : String :=
  ⟨(((s.data.dropWhile isWs).reverse.dropWhile isWs)).reverse⟩

/-- Split off the longest prefix free of the stop characters; the second
component starts with the stop character when one was found. -/
def takeUntil (stop : Char → Bool) : List Char → List Char × List Char
  | [] => ([], [])
  | c :: rest =>
    if stop c then ([], c :: rest)
    else
      let p := takeUntil stop rest
      (c :: p.1, p.2)

/-- Model of JavaScript `s.split(c)[0]`: the part of `s` before the first
occurrence of `c`. -/
def takeBefore (c : Char) (s : String) : String :=
  ⟨(takeUntil (fun d => d = c) s.data).1⟩

/-- Model of `s.slice(0, -1)`. -/
def dropLastStr (s : String) : String :=
  ⟨s.data.dropLast⟩

/-- Model of `s.endsWith('/')`. -/
def endsWithSlash (s : String) : Bool :=
  s.data.getLast? = some '/'

/-- Replace the first occurrence of `pat` in a character list by `rep`,
the behaviour of JavaScript `String.prototype.replace` with a string
pattern. -/
def replaceFirstList (pat rep : List Char) : List Char → List Char
  | [] => if pat.isPrefixOf ([] : List Char) then rep else []
  | c :: rest =>
    if pat.isPrefixOf (c :: rest) then rep ++ (c :: rest).drop pat.length
    else c :: replaceFirstList pat rep rest

/-- String-level wrapper for `replaceFirstList`. -/
def strReplaceFirst (s pat rep : String) : String :=
  ⟨replaceFirstList pat.data rep.data s.data⟩

/-- Deletion semantics for the normalizer's port strip: remove the first
occurrence of `':'` followed by the given digit run followed by `'/'`,
keeping the slash. -/
def deletePortFirst (ds : List Char) : List Char → List Char
  | [] => []
  | c :: rest =>
    if c = ':' && (ds ++ ['/']).isPrefixOf rest then rest.drop ds.length
    else c :: deletePortFirst ds rest

/-- Decimal rendering of a natural number, accumulator form. -/
def natToCharsAux (n : Nat) (acc : List Char) : List Char :=
  if h : n < 10 then Nat.digitChar n :: acc
  else natToCharsAux (n / 10) (Nat.digitChar (n % 10) :: acc)
  decreasing_by exact Nat.div_lt_self (by omega) (by omega)

/-- Decimal rendering of a natural number. -/
def natToChars (n : Nat) : List Char :=
  natToCharsAux n []

/-- Value of a run of decimal digit characters, most significant first. -/
def digitsToNat (l : List Char) : Nat :=
  l.foldl (fun a c => a * 10 + (c.toNat - 48)) 0

/-! ## The URL data model (the external WHATWG parser) -/

/-- The components of a parsed hierarchical URL, as exposed by the `URL`
object the source relies on (`protocol` without the colon, `hostname`,
elided default port, `pathname`, `search`, `hash`). -/
structure UrlParts where
  scheme : String
  host : String
  port : Option Nat
  path : String
  query : Option String
  fragment : Option String
deriving DecidableEq, Repr

/-- Characters allowed in a scheme. -/
def schemeCharOk (c : Char) : Bool :=
  isAsciiAlpha c || isAsciiDigit c || c = '+' || c = '-' || c = '.'

/-- A syntactically valid scheme: nonempty, letter first. -/
def schemeOk (l : List Char) : Bool :=
  match l with
  | [] => false
  | c :: _ => isAsciiAlpha c && l.all schemeCharOk

/-- Characters allowed in a host name (the authority delimiters are
excluded). -/
def hostCharOk (c : Char) : Bool :=
  !(c = ':' || c = '/' || c = '?' || c = '#' || c = '@')

/-- Stop characters ending the authority component. -/
def authStop (c : Char) : Bool :=
  c = '/' || c = '?' || c = '#'

/-- Stop characters ending the path component. -/
def pathStop (c : Char) : Bool :=
  c = '?' || c = '#'

/-- Is `n` the default port of `scheme`? (80 for http, 443 for https —
the two the normalizer cares about.) -/
def defaultPort (scheme : String) (n : Nat) : Bool :=
  (scheme = "http" && n = 80) || (scheme = "https" && n = 443)

/-- Model of `new URL(url)` for hierarchical URLs (the external WHATWG
parser): split into scheme, host, optional port, path, query and
fragment; lowercase scheme and host; elide a default port; reject
anything without a `scheme://host` shape (such inputs make the real
parser throw, modelled by `none`).  Percent-encoding, dot-segment
removal, userinfo and IPv6 hosts are not modelled; inputs using them
are rejected or kept verbatim. -/
def parseUrl (url : String) : Option UrlParts :=
  let sp := takeUntil (fun c => c = ':') url.data
  match sp.2 with
  | ':' :: '/' :: '/' :: rest =>
    if schemeOk sp.1 then
      let scheme : String := ⟨sp.1.map lowerChar⟩
      let ap := takeUntil authStop rest
      if ap.1.contains '@' then none
      else
        let hp := takeUntil (fun c => c = ':') ap.1
        if hp.1 = [] then none
        else
          let host : String := ⟨hp.1.map lowerChar⟩
          let port0 : Option (Option Nat) :=
            match hp.2 with
            | [] => some none
            | ':' :: ds =>
              if ds = [] then some none
              else if ds.all isAsciiDigit then
                if digitsToNat ds ≤ 65535 then some (some (digitsToNat ds)) else none
              else none
            | _ :: _ => none
          match port0 with
          | none => none
          | some pn =>
            let port : Option Nat :=
              match pn with
              | some n => if defaultPort scheme n then none else some n
              | none => none
            let pp := takeUntil pathStop ap.2
            let path : String := if pp.1 = [] then "/" else ⟨pp.1⟩
            match pp.2 with
            | [] => some ⟨scheme, host, port, path, none, none⟩
            | '?' :: qrest =>
              let qp := takeUntil (fun c => c = '#') qrest
              match qp.2 with
              | '#' :: fr => some ⟨scheme, host, port, path, some ⟨qp.1⟩, some ⟨fr⟩⟩
              | _ => some ⟨scheme, host, port, path, some ⟨qp.1⟩, none⟩
            | '#' :: fr => some ⟨scheme, host, port, path, none, some ⟨fr⟩⟩
            | _ :: _ => none
    else none
  | _ => none

/-- Serialization of a port, `":<digits>"` or empty. -/
def portSuffix (port : Option Nat) : String :=
  match port with
  | some n => ⟨':' :: natToChars n⟩
  | none => ""

/-- Model of `URL.prototype.toString()` on the parsed components. -/
def serializeUrl (p : UrlParts) : String :=
  p.scheme ++ "://" ++ p.host ++ portSuffix p.port ++ p.path ++
    (match p.query with | some q => "?" ++ q | none => "") ++
    (match p.fragment with | some f => "#" ++ f | none => "")

/-! ## The URL normalizer (`normalizeUrl`, src/canonical.js lines 36-66) -/

/-- Shallow embedding of `normalizeUrl`: parse (returning the input
unchanged when the parse throws), lowercase the serialized URL, strip a
trailing slash unless the path is the root, textually delete the first
`":80/"` and `":443/"`, delete the first `"://www."`, then drop query
and fragment. -/
def normalizeUrl (url : String) : String :=
  match parseUrl url with
  | none => url
  | some parsedUrl =>
    let normalized := toLowerStr (serializeUrl parsedUrl)
    let normalized :=
      if endsWithSlash normalized && parsedUrl.path ≠ "/" then dropLastStr normalized
      else normalized
    let normalized := strReplaceFirst normalized ":80/" "/"
    let normalized := strReplaceFirst normalized ":443/" "/"
    let normalized := strReplaceFirst normalized "://www." "://"
    let urlWithoutQuery := takeBefore '?' normalized
    let urlWithoutHash := takeBefore '#' urlWithoutQuery
    urlWithoutHash

/-- Shallow embedding of `areUrlsEquivalent`. -/
def areUrlsEquivalent (url1 url2 : String) : Bool :=
  normalizeUrl url1 = normalizeUrl url2

/-! ## The canonical rule evaluator (`runCanonicalChecks`, src/canonical.js lines 87-181) -/

/-- Check status of a page, `'OK' | 'FAIL'`. -/
inductive Status where
  | OK : Status
  | FAIL : Status
deriving DecidableEq, Repr

/-- One `<link rel="canonical">` element as the evaluator inspects it:
its `href` attribute (`none` when absent) and whether `closest('head')`
finds a head ancestor. -/
structure CanonicalLink where
  href : Option String
  inHead : Bool
deriving DecidableEq, Repr

/-- The per-URL result row (`{ url, status, explanation }`). -/
structure CheckResult where
  url : String
  status : Status
  explanation : String
deriving DecidableEq, Repr

/-- Model of `new URL(u).hostname`, throwing on an unparseable URL. -/
def urlHostname (u : String) : Except String String :=
  match parseUrl u with
  | some p => Except.ok p.host
  | none => Except.error ("Invalid URL: " ++ u)

/-- Model of `new URL(u).protocol` (scheme with trailing colon),
throwing on an unparseable URL. -/
def urlProtocol (u : String) : Except String String :=
  match parseUrl u with
  | some p => Except.ok (p.scheme ++ ":")
  | none => Except.error ("Invalid URL: " ++ u)

/-- The directory part of a path: everything up to and including the
last slash. -/
def dirOf (path : String) : String :=
  ⟨(path.data.reverse.dropWhile (fun c => !(c = '/'))).reverse⟩

/-- Model of `String.prototype.startsWith`. -/
def strStartsWith (s pre : String) : Bool :=
  pre.data.isPrefixOf s.data

/-- Model of `new URL(href, base).toString()` (the external WHATWG
resolver): an absolute `href` is parsed on its own; a protocol-relative
or root-relative `href` is joined with the base's scheme and authority;
any other `href` is joined with the base's directory.  A failure of the
final parse models the thrown `Invalid URL` error. -/
def resolveUrl (href base : String) : Except String String :=
  match parseUrl href with
  | some p => Except.ok (serializeUrl p)
  | none =>
    match parseUrl base with
    | none => Except.error ("Invalid base URL: " ++ base)
    | some b =>
      let authority := b.host ++ portSuffix b.port
      let joined :=
        if strStartsWith href "//" then b.scheme ++ ":" ++ href
        else if strStartsWith href "/" then b.scheme ++ "://" ++ authority ++ href
        else b.scheme ++ "://" ++ authority ++ dirOf b.path ++ href
      match parseUrl joined with
      | some r => Except.ok (serializeUrl r)
      | none => Except.error ("Invalid URL: " ++ href)

/-- One gated check of the evaluator: on a true condition set status to
FAIL and append the reason phrase (the `if (...) { status = 'FAIL';
explanation += '...'; }` pattern of the source). -/
def addCheck (cond : Bool) (phrase : String) (acc : Status × String) : Status × String :=
  if cond then (Status.FAIL, acc.2 ++ phrase) else acc

/-- The body of `runCanonicalChecks` after the page document has been
obtained: the sequence of gated checks of src/canonical.js lines
95-165.  `fetchStatus` is the canonical-target resolver (the second
`fetch`); a thrown error escaping to the outer catch is the `error`
case. -/
def checkBody (fetchStatus : String → Except String Nat) (url : String)
    (canonicalLinks : List CanonicalLink) : Except String (Status × String) :=
  match canonicalLinks with
  | [] => Except.ok (Status.FAIL, "Canonical tag is missing. ")
  | canonicalLink :: restLinks =>
    let acc : Status × String :=
      addCheck (decide ((canonicalLink :: restLinks).length > 1))
        "Multiple canonical tags detected. " (Status.OK, "")
    if canonicalLink.href.getD "" = "" then
      Except.ok (Status.FAIL, acc.2 ++ "Canonical tag is empty. ")
    else
      match resolveUrl (canonicalLink.href.getD "") url with
      | Except.error e => Except.error e
      | Except.ok canonicalUrl =>
        let acc := addCheck (!canonicalLink.inHead)
          "Canonical tag is not in the head section. " acc
        let acc :=
          match fetchStatus canonicalUrl with
          | Except.ok code =>
            addCheck (decide (code ∈ [301, 302, 307, 308]))
              "Canonical URL is redirecting. "
              (addCheck (decide (code ≠ 200))
                ("Canonical URL returned status " ++ toString code ++ ". ") acc)
          | Except.error msg =>
            (Status.FAIL, acc.2 ++ ("Error fetching canonical URL: " ++ msg ++ ". "))
        match urlHostname url with
        | Except.error e => Except.error e
        | Except.ok urlHost =>
          match urlHostname canonicalUrl with
          | Except.error e => Except.error e
          | Except.ok canonicalHost =>
            let acc := addCheck (decide (urlHost ≠ canonicalHost))
              "Canonical URL uses a different domain. " acc
            match urlProtocol url with
            | Except.error e => Except.error e
            | Except.ok urlProt =>
              match urlProtocol canonicalUrl with
              | Except.error e => Except.error e
              | Except.ok canonicalProt =>
                let acc := addCheck (decide (urlProt ≠ canonicalProt))
                  "Canonical URL uses a different protocol. " acc
                let acc := addCheck
                  (!(strStartsWith canonicalUrl "http://" || strStartsWith canonicalUrl "https://"))
                  "Canonical URL is not absolute. " acc
                let acc := addCheck (decide (canonicalUrl ≠ toLowerStr canonicalUrl))
                  "Canonical URL is not lowercase. " acc
                Except.ok acc

/-- Render the final explanation: `explanation.trim() || 'No errors'`. -/
def renderExplanation (explanation : String) : String :=
  if trimStr explanation = "" then "No errors" else trimStr explanation

/-- Shallow embedding of `runCanonicalChecks` (src/canonical.js lines
87-181).  `fetchPage` models `fetch` + `response.text()` + JSDOM +
`querySelectorAll('link[rel="canonical"]')`: either the canonical link
elements of the document, or a thrown error.  Every thrown error ends
in the outer catch, producing a single FAIL row. -/
def runCanonicalChecks (fetchPage : String → Except String (List CanonicalLink))
    (fetchStatus : String → Except String Nat) (url : String) : CheckResult :=
  match fetchPage url with
  | Except.error msg => ⟨url, Status.FAIL, "Fetch error: " ++ msg⟩
  | Except.ok canonicalLinks =>
    match checkBody fetchStatus url canonicalLinks with
    | Except.error msg => ⟨url, Status.FAIL, "Fetch error: " ++ msg⟩
    | Except.ok (status, explanation) => ⟨url, status, renderExplanation explanation⟩

/-- Body of the variant evaluator (second source variant, lines
309-393): same gated checks, but with a hard-coded self-reference
requirement after the canonical-target fetch, and with the absolute
check before the domain/protocol checks. -/
def checkBodyV2 (fetchStatus : String → Except String Nat) (url : String)
    (canonicalLinks : List CanonicalLink) : Except String (Status × String) :=
  match canonicalLinks with
  | [] => Except.ok (Status.FAIL, "Canonical tag is missing. ")
  | canonicalLink :: restLinks =>
    let acc : Status × String :=
      addCheck (decide ((canonicalLink :: restLinks).length > 1))
        "Multiple canonical tags detected. " (Status.OK, "")
    if canonicalLink.href.getD "" = "" then
      Except.ok (Status.FAIL, acc.2 ++ "Canonical tag is empty. ")
    else
      match resolveUrl (canonicalLink.href.getD "") url with
      | Except.error e => Except.error e
      | Except.ok canonicalUrl =>
        let acc := addCheck (!canonicalLink.inHead)
          "Canonical tag is not in the head section. " acc
        let acc :=
          match fetchStatus canonicalUrl with
          | Except.ok code =>
            addCheck (decide (code ∈ [301, 302, 307, 308]))
              "Canonical URL is redirecting. "
              (addCheck (decide (code ≠ 200))
                ("Canonical URL returned status " ++ toString code ++ ". ") acc)
          | Except.error msg =>
            (Status.FAIL, acc.2 ++ ("Error fetching canonical URL: " ++ msg ++ ". "))
        let acc := addCheck (decide (canonicalUrl ≠ url))
          "Canonical URL does not reference itself. " acc
        let acc := addCheck
          (!(strStartsWith canonicalUrl "http://" || strStartsWith canonicalUrl "https://"))
          "Canonical URL is not absolute. " acc
        match urlHostname url with
        | Except.error e => Except.error e
        | Except.ok urlHost =>
          match urlHostname canonicalUrl with
          | Except.error e => Except.error e
          | Except.ok canonicalHost =>
            let acc := addCheck (decide (urlHost ≠ canonicalHost))
              "Canonical URL uses a different domain. " acc
            match urlProtocol url with
            | Except.error e => Except.error e
            | Except.ok urlProt =>
              match urlProtocol canonicalUrl with
              | Except.error e => Except.error e
              | Except.ok canonicalProt =>
                let acc := addCheck (decide (urlProt ≠ canonicalProt))
                  "Canonical URL uses a different protocol. " acc
                let acc := addCheck (decide (canonicalUrl ≠ toLowerStr canonicalUrl))
                  "Canonical URL is not lowercase. " acc
                Except.ok acc

/-- Shallow embedding of the variant `runCanonicalChecks` with the
hard-coded self-reference check. -/
def runCanonicalChecksV2 (fetchPage : String → Except String (List CanonicalLink))
    (fetchStatus : String → Except String Nat) (url : String) : CheckResult :=
  match fetchPage url with
  | Except.error msg => ⟨url, Status.FAIL, "Fetch error: " ++ msg⟩
  | Except.ok canonicalLinks =>
    match checkBodyV2 fetchStatus url canonicalLinks with
    | Except.error msg => ⟨url, Status.FAIL, "Fetch error: " ++ msg⟩
    | Except.ok (status, explanation) => ⟨url, status, renderExplanation explanation⟩

/-! ## The audit orchestrator (`runAudit`, src/canonical.js lines 217-263) -/

/-- The world the audit runs against: the sitemap loader
(`fetch` + `parseStringPromise` + `urlset.url[].loc`, a thrown network
or parse error being the `error` case) and the page-level oracles. -/
structure AuditWorld where
  fetchSitemap : String → Except String (List String)
  fetchPage : String → Except String (List CanonicalLink)
  fetchStatus : String → Except String Nat

/-- One written report (`saveResultsToCSV`): the per-URL rows and the
summary counters it returns. -/
structure SitemapReport where
  sitemapUrl : String
  domain : String
  results : List CheckResult
  totalOK : Nat
  totalFail : Nat
  totalChecked : Nat
deriving DecidableEq, Repr

/-- Count of OK rows. -/
def countOK (results : List CheckResult) : Nat :=
  (results.filter (fun r => r.status = Status.OK)).length

/-- Count of non-OK rows. -/
def countFail (results : List CheckResult) : Nat :=
  (results.filter (fun r => !(r.status = Status.OK))).length

/-- Shallow embedding of `runAudit`: for each configured sitemap URL,
take its domain (`new URL(...).hostname` — a throw aborts the run),
load the sitemap (a throw aborts the run), evaluate every URL, write
one report, and fold the grand totals.  The first component is the list
of reports actually written before any abort; the second is the grand
total `(OK, FAIL, checked)` or the propagated error. -/
def runAudit (w : AuditWorld) (sitemapUrls : List String) :
    List SitemapReport × Except String (Nat × Nat × Nat) :=
  match sitemapUrls with
  | [] => ([], Except.ok (0, 0, 0))
  | sitemapUrl :: rest =>
    match urlHostname sitemapUrl with
    | Except.error e => ([], Except.error e)
    | Except.ok domain =>
      match w.fetchSitemap sitemapUrl with
      | Except.error e => ([], Except.error e)
      | Except.ok urls =>
        let results := urls.map (runCanonicalChecks w.fetchPage w.fetchStatus)
        let report : SitemapReport :=
          ⟨sitemapUrl, domain, results, countOK results, countFail results, results.length⟩
        let next := runAudit w rest
        (report :: next.1,
          match next.2 with
          | Except.ok (a, b, c) =>
            Except.ok (countOK results + a, countFail results + b, results.length + c)
          | Except.error e => Except.error e)

theorem strData_append (a b : String) : (a ++ b).data = a.data ++ b.data := rfl

theorem strMk_data (s : String) : String.mk s.data = s := rfl

theorem lowerChar_upper_or_fix (c : Char) :
    ('A' ≤ c ∧ c ≤ 'Z') ∨ lowerChar c = c := by
  unfold lowerChar
  split <;> first | exact Or.inl (by decide) | exact Or.inr rfl

theorem lowerChar_lower_or_fix (c : Char) :
    ('a' ≤ lowerChar c ∧ lowerChar c ≤ 'z') ∨ lowerChar c = c := by
  unfold lowerChar
  split <;> first | exact Or.inl (by decide) | exact Or.inr rfl

theorem lowerChar_fix (c : Char) (h : ¬('A' ≤ c ∧ c ≤ 'Z')) : lowerChar c = c := by
  unfold lowerChar
  split <;> first | rfl | exact absurd (by decide) h

theorem lowerChar_idem (c : Char) : lowerChar (lowerChar c) = lowerChar c := by
  rcases lowerChar_lower_or_fix c with h | h
  · exact lowerChar_fix _ (fun hu => absurd (Char.le_trans h.1 hu.2) (by decide))
  · rw [h, h]

theorem lowerChar_eq_reflect (c d : Char) (hd : ¬('a' ≤ d ∧ d ≤ 'z'))
    (h : lowerChar c = d) : c = d := by
  rcases lowerChar_lower_or_fix c with h2 | h2
  · rw [h] at h2; exact absurd h2 hd
  · rw [← h, h2]

theorem lowerChar_digit (c : Char) (h : isAsciiDigit c = true) : lowerChar c = c := by
  apply lowerChar_fix
  rintro ⟨h1, h2⟩
  unfold isAsciiDigit at h
  simp only [Bool.and_eq_true, decide_eq_true_eq] at h
  exact absurd (Char.le_trans h1 h.2) (by decide)

theorem isAsciiAlpha_lowerChar (c : Char) :
    isAsciiAlpha (lowerChar c) = isAsciiAlpha c := by
  rcases lowerChar_upper_or_fix c with hu | hf
  · rcases lowerChar_lower_or_fix c with hl | hf2
    · have h1 : isAsciiAlpha (lowerChar c) = true := by
        unfold isAsciiAlpha
        simp only [Bool.or_eq_true, Bool.and_eq_true, decide_eq_true_eq]
        exact Or.inl hl
      have h2 : isAsciiAlpha c = true := by
        unfold isAsciiAlpha
        simp only [Bool.or_eq_true, Bool.and_eq_true, decide_eq_true_eq]
        exact Or.inr hu
      rw [h1, h2]
    · rw [hf2]
  · rw [hf]

theorem letter_of_lowerChar_cases (c : Char)
    (h : ('A' ≤ c ∧ c ≤ 'Z') ∨ ('a' ≤ c ∧ c ≤ 'z')) :
    ('A' ≤ lowerChar c ∧ lowerChar c ≤ 'Z') ∨ ('a' ≤ lowerChar c ∧ lowerChar c ≤ 'z') := by
  rcases lowerChar_lower_or_fix c with hl | hf
  · exact Or.inr hl
  · rw [hf]; exact h

theorem schemeCharOk_letter (c : Char)
    (h : ('A' ≤ c ∧ c ≤ 'Z') ∨ ('a' ≤ c ∧ c ≤ 'z')) : schemeCharOk c = true := by
  have ha : isAsciiAlpha c = true := by
    unfold isAsciiAlpha
    simp only [Bool.or_eq_true, Bool.and_eq_true, decide_eq_true_eq]
    exact h.symm.imp id id
  unfold schemeCharOk
  simp [ha]

theorem ne_delim_of_letter (c d : Char)
    (h : ('A' ≤ c ∧ c ≤ 'Z') ∨ ('a' ≤ c ∧ c ≤ 'z'))
    (hd : ('A' ≤ d ∧ d ≤ 'Z') → False)
    (hd2 : ('a' ≤ d ∧ d ≤ 'z') → False) : c ≠ d := by
  rintro rfl
  rcases h with h | h
  · exact hd h
  · exact hd2 h

theorem hostCharOk_letter (c : Char)
    (h : ('A' ≤ c ∧ c ≤ 'Z') ∨ ('a' ≤ c ∧ c ≤ 'z')) : hostCharOk c = true := by
  have h1 := ne_delim_of_letter c ':' h (by decide) (by decide)
  have h2 := ne_delim_of_letter c '/' h (by decide) (by decide)
  have h3 := ne_delim_of_letter c '?' h (by decide) (by decide)
  have h4 := ne_delim_of_letter c '#' h (by decide) (by decide)
  have h5 := ne_delim_of_letter c '@' h (by decide) (by decide)
  unfold hostCharOk
  simp [h1, h2, h3, h4, h5]

theorem pathStop_letter (c : Char)
    (h : ('A' ≤ c ∧ c ≤ 'Z') ∨ ('a' ≤ c ∧ c ≤ 'z')) : pathStop c = false := by
  have h3 := ne_delim_of_letter c '?' h (by decide) (by decide)
  have h4 := ne_delim_of_letter c '#' h (by decide) (by decide)
  unfold pathStop
  simp [h3, h4]

theorem schemeCharOk_lowerChar (c : Char) :
    schemeCharOk (lowerChar c) = schemeCharOk c := by
  rcases lowerChar_upper_or_fix c with hu | hf
  · rw [schemeCharOk_letter _ (letter_of_lowerChar_cases c (Or.inl hu)),
      schemeCharOk_letter _ (Or.inl hu)]
  · rw [hf]

theorem hostCharOk_lowerChar (c : Char) :
    hostCharOk (lowerChar c) = hostCharOk c := by
  rcases lowerChar_upper_or_fix c with hu | hf
  · rw [hostCharOk_letter _ (letter_of_lowerChar_cases c (Or.inl hu)),
      hostCharOk_letter _ (Or.inl hu)]
  · rw [hf]

theorem pathStop_lowerChar (c : Char) :
    pathStop (lowerChar c) = pathStop c := by
  rcases lowerChar_upper_or_fix c with hu | hf
  · rw [pathStop_letter _ (letter_of_lowerChar_cases c (Or.inl hu)),
      pathStop_letter _ (Or.inl hu)]
  · rw [hf]

theorem takeUntil_nil (stop : Char → Bool) : takeUntil stop [] = ([], []) := rfl

theorem takeUntil_cons_stop (stop : Char → Bool) (c : Char) (t : List Char)
    (h : stop c = true) : takeUntil stop (c :: t) = ([], c :: t) := by
  conv_lhs => unfold takeUntil
  simp [h]

theorem takeUntil_cons_not_stop (stop : Char → Bool) (c : Char) (t : List Char)
    (h : stop c = false) :
    takeUntil stop (c :: t) = (c :: (takeUntil stop t).1, (takeUntil stop t).2) := by
  conv_lhs => unfold takeUntil
  simp [h]

theorem takeUntil_append (stop : Char → Bool) (a b : List Char)
    (h : ∀ c ∈ a, stop c = false) :
    takeUntil stop (a ++ b) = (a ++ (takeUntil stop b).1, (takeUntil stop b).2) := by
  induction a with
  | nil => simp
  | cons c t ih =>
    have hc : stop c = false := h c (List.mem_cons_self c t)
    have ht : ∀ d ∈ t, stop d = false := fun d hd => h d (List.mem_cons_of_mem c hd)
    rw [List.cons_append, takeUntil_cons_not_stop stop c (t ++ b) hc, ih ht]
    simp

theorem takeUntil_all_clear (stop : Char → Bool) (l : List Char)
    (h : ∀ c ∈ l, stop c = false) : takeUntil stop l = (l, []) := by
  have h2 := takeUntil_append stop l [] h
  rw [List.append_nil] at h2
  rw [h2, takeUntil_nil]
  simp

theorem takeUntil_fst_all (stop : Char → Bool) (l : List Char) :
    ∀ c ∈ (takeUntil stop l).1, stop c = false := by
  induction l with
  | nil => simp [takeUntil]
  | cons c t ih =>
    by_cases hc : stop c = true
    · simp [takeUntil_cons_stop stop c t hc]
    · simp only [Bool.not_eq_true] at hc
      rw [takeUntil_cons_not_stop stop c t hc]
      intro d hd
      rcases List.mem_cons.mp hd with rfl | hd
      · exact hc
      · exact ih d hd

theorem takeUntil_fst_front (stop : Char → Bool) (l : List Char) :
    (takeUntil stop l).1 <+: l := by
  induction l with
  | nil => simp [takeUntil]
  | cons c t ih =>
    by_cases hc : stop c = true
    · simp [takeUntil_cons_stop stop c t hc]
    · simp only [Bool.not_eq_true] at hc
      rw [takeUntil_cons_not_stop stop c t hc]
      exact (List.prefix_cons_inj c).mpr ih

theorem takeUntil_snd_cases (stop : Char → Bool) (l : List Char) :
    (takeUntil stop l).2 = [] ∨
      ∃ c t, (takeUntil stop l).2 = c :: t ∧ stop c = true := by
  induction l with
  | nil => simp [takeUntil]
  | cons c t ih =>
    by_cases hc : stop c = true
    · exact Or.inr ⟨c, t, by simp [takeUntil_cons_stop stop c t hc], hc⟩
    · simp only [Bool.not_eq_true] at hc
      rw [takeUntil_cons_not_stop stop c t hc]
      exact ih

theorem contains_eq_false_of_all (l : List Char) (c : Char)
    (h : ∀ d ∈ l, d ≠ c) : l.contains c = false := by
  cases hc : l.contains c
  · rfl
  · exact absurd rfl (h c (List.mem_of_elem_eq_true hc))

theorem natToCharsAux_step (n : Nat) (acc : List Char) :
    natToCharsAux n acc =
      if n < 10 then Nat.digitChar n :: acc
      else natToCharsAux (n / 10) (Nat.digitChar (n % 10) :: acc) := by
  rw [natToCharsAux]
  rw [dite_eq_ite]

theorem natToCharsAux_append (n : Nat) :
    ∀ acc : List Char, natToCharsAux n acc = natToCharsAux n [] ++ acc := by
  induction n using Nat.strong_induction_on with
  | _ n ih =>
    intro acc
    rw [natToCharsAux_step n acc, natToCharsAux_step n []]
    by_cases h : n < 10
    · simp [h]
    · simp only [h, if_false]
      have hlt : n / 10 < n := Nat.div_lt_self (by omega) (by omega)
      rw [ih (n / 10) hlt (Nat.digitChar (n % 10) :: acc),
        ih (n / 10) hlt [Nat.digitChar (n % 10)]]
      simp

theorem digitChar_isDigit (m : Nat) (h : m < 10) :
    isAsciiDigit (Nat.digitChar m) = true := by
  interval_cases m <;> decide

theorem digitChar_val (m : Nat) (h : m < 10) :
    (Nat.digitChar m).toNat - 48 = m := by
  interval_cases m <;> decide

theorem natToChars_ne_nil (n : Nat) : natToChars n ≠ [] := by
  unfold natToChars
  rw [natToCharsAux_step]
  by_cases h : n < 10
  · simp [h]
  · simp only [h, if_false]
    rw [natToCharsAux_append]
    simp

theorem natToChars_all_digits (n : Nat) :
    ∀ c ∈ natToChars n, isAsciiDigit c = true := by
  induction n using Nat.strong_induction_on with
  | _ n ih =>
    unfold natToChars
    rw [natToCharsAux_step]
    by_cases h : n < 10
    · simp only [h, if_true]
      intro c hc
      rcases List.mem_singleton.mp hc with rfl
      exact digitChar_isDigit n h
    · simp only [h, if_false]
      rw [natToCharsAux_append]
      intro c hc
      rcases List.mem_append.mp hc with hc | hc
      · exact ih (n / 10) (Nat.div_lt_self (by omega) (by omega)) c hc
      · rcases List.mem_singleton.mp hc with rfl
        exact digitChar_isDigit (n % 10) (Nat.mod_lt _ (by omega))

theorem digitsToNat_append_singleton (l : List Char) (c : Char) :
    digitsToNat (l ++ [c]) = digitsToNat l * 10 + (c.toNat - 48) := by
  unfold digitsToNat
  rw [List.foldl_append]
  simp

theorem digitsToNat_natToChars (n : Nat) : digitsToNat (natToChars n) = n := by
  induction n using Nat.strong_induction_on with
  | _ n ih =>
    unfold natToChars
    rw [natToCharsAux_step]
    by_cases h : n < 10
    · simp only [h, if_true]
      unfold digitsToNat
      simp [digitChar_val n h]
    · simp only [h, if_false]
      rw [natToCharsAux_append, digitsToNat_append_singleton]
      have ih2 := ih (n / 10) (Nat.div_lt_self (by omega) (by omega))
      unfold natToChars at ih2
      rw [ih2]
      rw [digitChar_val (n % 10) (Nat.mod_lt _ (by omega))]
      omega

theorem replaceFirstList_no_match (pat rep l : List Char) (h : ¬ pat <:+: l) :
    replaceFirstList pat rep l = l := by
  induction l with
  | nil =>
    unfold replaceFirstList
    have hp : pat.isPrefixOf ([] : List Char) = false := by
      cases hp : pat.isPrefixOf ([] : List Char)
      · rfl
      · exact absurd (List.isPrefixOf_iff_prefix.mp hp).isInfix h
    simp [hp]
  | cons c t ih =>
    unfold replaceFirstList
    have hp : pat.isPrefixOf (c :: t) = false := by
      cases hp : pat.isPrefixOf (c :: t)
      · rfl
      · exact absurd (List.isPrefixOf_iff_prefix.mp hp).isInfix h
    simp only [hp, Bool.false_eq_true, if_false, List.cons.injEq, true_and]
    exact ih (fun hi => h (List.infix_cons hi))

theorem replaceFirstList_eq_deletePortFirst (ds : List Char) (l : List Char) :
    replaceFirstList (':' :: (ds ++ ['/'])) ['/'] l = deletePortFirst ds l := by
  induction l with
  | nil => rfl
  | cons c t ih =>
    unfold replaceFirstList deletePortFirst
    by_cases hc : c = ':'
    · subst hc
      by_cases hp : (ds ++ ['/']).isPrefixOf t = true
      · obtain ⟨u, hu⟩ := List.isPrefixOf_iff_prefix.mp hp
        have hp2 : (':' :: (ds ++ ['/'])).isPrefixOf (':' :: t) = true := by
          rw [List.isPrefixOf_iff_prefix, List.prefix_cons_inj]
          exact List.isPrefixOf_iff_prefix.mp hp
        simp only [hp2, if_true, hp, Bool.and_true, decide_eq_true_eq, if_pos rfl]
        rw [← hu]
        have h1 : (':' :: (ds ++ ['/'] ++ u)).drop (':' :: (ds ++ ['/'])).length
            = ((ds ++ ['/']) ++ u).drop (ds ++ ['/']).length := by
          rw [List.length_cons, List.drop_succ_cons]
        rw [h1, List.drop_left]
        have h2 : ds ++ ['/'] ++ u = ds ++ ('/' :: u) := by simp
        rw [h2, List.drop_left]
        rfl
      · have hp2 : (':' :: (ds ++ ['/'])).isPrefixOf (':' :: t) = false := by
          cases hq : (':' :: (ds ++ ['/'])).isPrefixOf (':' :: t)
          · rfl
          · have h3 := List.isPrefixOf_iff_prefix.mp hq
            rw [List.prefix_cons_inj] at h3
            exact absurd (List.isPrefixOf_iff_prefix.mpr h3) hp
        simp only [Bool.not_eq_true] at hp
        simp only [hp2, hp, Bool.and_false, Bool.false_eq_true, if_false]
        exact congrArg _ ih
    · have hp2 : (':' :: (ds ++ ['/'])).isPrefixOf (c :: t) = false := by
        cases hq : (':' :: (ds ++ ['/'])).isPrefixOf (c :: t)
        · rfl
        · obtain ⟨u, hu⟩ := List.isPrefixOf_iff_prefix.mp hq
          simp only [List.cons_append, List.cons.injEq] at hu
          exact absurd hu.1.symm hc
      have hc2 : decide (c = ':') = false := by simp [hc]
      simp only [hp2, hc2, Bool.false_and, Bool.false_eq_true, if_false]
      exact congrArg _ ih

theorem infix_of_prefix_infix (pat s t : List Char) (h : pat <:+: s) (hp : s <+: t) :
    pat <:+: t := h.trans hp.isInfix

theorem infix_append_right (pat a b : List Char) (h : pat <:+: a) : pat <:+: a ++ b := by
  obtain ⟨x, y, hxy⟩ := h
  exact ⟨x, y ++ b, by rw [← hxy]; simp⟩

theorem infix_dropWhile_left (pat : List Char) (hne : pat ≠ [])
    (hhead : ∀ c, pat.head? = some c → isWs c = false) :
    ∀ l : List Char, pat <:+: l → pat <:+: l.dropWhile isWs := by
  intro l
  induction l with
  | nil => simp
  | cons c t ih =>
    intro h
    by_cases hc : isWs c = true
    · rw [List.dropWhile_cons_of_pos hc]
      apply ih
      obtain ⟨a, b, hab⟩ := h
      match a, hab with
      | [], hab =>
        exfalso
        match pat, hne, hab with
        | p :: ps, _, hab =>
          simp only [List.nil_append, List.cons_append, List.cons.injEq] at hab
          have := hhead p (by rw [List.head?_cons])
          rw [hab.1] at this
          rw [this] at hc
          exact Bool.false_ne_true hc
      | a0 :: a', hab =>
        simp only [List.cons_append, List.cons.injEq] at hab
        exact ⟨a', b, hab.2⟩
    · simp only [Bool.not_eq_true] at hc
      rw [List.dropWhile_cons_of_neg (by simp [hc])]
      exact h

theorem infix_trim (pat : List Char) (hne : pat ≠ [])
    (hhead : ∀ c, pat.head? = some c → isWs c = false)
    (hlast : ∀ c, pat.getLast? = some c → isWs c = false)
    (s : String) (h : pat <:+: s.data) : pat <:+: (trimStr s).data := by
  unfold trimStr
  have step1 : pat <:+: s.data.dropWhile isWs :=
    infix_dropWhile_left pat hne hhead s.data h
  have step2 : pat.reverse <:+: (s.data.dropWhile isWs).reverse :=
    List.reverse_infix.mpr step1
  have hne2 : pat.reverse ≠ [] := by simpa using hne
  have hhead2 : ∀ c, pat.reverse.head? = some c → isWs c = false := by
    intro c hcc
    rw [List.head?_reverse] at hcc
    exact hlast c hcc
  have step3 := infix_dropWhile_left pat.reverse hne2 hhead2 _ step2
  exact List.reverse_infix.mp (by simpa using step3)

def goodHead (s : String) : Bool :=
  match s.data with
  | c :: _ => c = 'C' || c = 'M' || c = 'E'
  | [] => false

def GoodAcc (acc : Status × String) : Prop :=
  (acc.1 = Status.OK ∧ acc.2 = "") ∨ (acc.1 = Status.FAIL ∧ goodHead acc.2 = true)

theorem goodHead_append_left (a b : String) (h : goodHead a = true) :
    goodHead (a ++ b) = true := by
  unfold goodHead at h ⊢
  rw [strData_append]
  match ha : a.data, h with
  | c :: t, h => simpa using h

theorem empty_append (b : String) : "" ++ b = b := by
  apply congrArg String.mk (List.nil_append b.data)

theorem good_append (acc : Status × String) (phrase : String)
    (hacc : GoodAcc acc) (hph : goodHead phrase = true) :
    GoodAcc (Status.FAIL, acc.2 ++ phrase) := by
  rcases hacc with ⟨_, h2⟩ | ⟨_, h2⟩
  · rw [h2, empty_append]
    exact Or.inr ⟨rfl, hph⟩
  · exact Or.inr ⟨rfl, goodHead_append_left _ _ h2⟩

theorem good_addCheck (b : Bool) (phrase : String) (acc : Status × String)
    (hacc : GoodAcc acc) (hph : goodHead phrase = true) :
    GoodAcc (addCheck b phrase acc) := by
  unfold addCheck
  cases b
  · simpa using hacc
  · simpa using good_append acc phrase hacc hph

theorem trim_head (c : Char) (t : List Char) (hc : isWs c = false) :
    ∃ t2, (trimStr ⟨c :: t⟩).data = c :: t2 := by
  unfold trimStr
  simp only
  rw [List.dropWhile_cons_of_neg (by simp [hc])]
  have hsuf : (c :: t).reverse.dropWhile isWs <:+ (c :: t).reverse :=
    List.dropWhile_suffix _
  have hne : (c :: t).reverse.dropWhile isWs ≠ [] := by
    intro hnil
    have h2 := List.dropWhile_eq_nil_iff.mp hnil c (by simp)
    rw [h2] at hc
    exact absurd hc (by decide)
  obtain ⟨pre, hpre⟩ := hsuf
  have hlast : ((c :: t).reverse.dropWhile isWs).getLast? = some c := by
    rw [← List.getLast?_append_of_ne_nil pre hne, hpre]
    rw [List.reverse_cons, List.getLast?_append_of_ne_nil _ (by simp)]
    rfl
  have hhead : ((c :: t).reverse.dropWhile isWs).reverse.head? = some c := by
    rw [List.head?_reverse]
    exact hlast
  match hrev : ((c :: t).reverse.dropWhile isWs).reverse, hhead with
  | d :: t2, hhead =>
    simp only [List.head?_cons, Option.some.injEq] at hhead
    exact ⟨t2, by rw [hhead]⟩

theorem goodHead_trim (s : String) (h : goodHead s = true) :
    goodHead (trimStr s) = true := by
  unfold goodHead at h
  match hs : s.data, h with
  | c :: t, h =>
    have hcme : (c = 'C' ∨ c = 'M') ∨ c = 'E' := by simpa using h
    have hws : isWs c = false := by rcases hcme with (rfl | rfl) | rfl <;> decide
    have hseq : s = ⟨c :: t⟩ := by rw [← hs]
    obtain ⟨t2, ht2⟩ := trim_head c t hws
    rw [hseq]
    unfold goodHead
    rw [ht2]
    simpa using h

theorem goodHead_ne_noerrors (s : String) (h : goodHead s = true) :
    s ≠ "No errors" := by
  intro he
  rw [he] at h
  exact absurd h (by decide)

theorem goodHead_ne_empty (s : String) (h : goodHead s = true) : s ≠ "" := by
  intro he
  rw [he] at h
  exact absurd h (by decide)

theorem fetchError_ne_noerrors (msg : String) :
    ("Fetch error: " ++ msg) ≠ "No errors" := by
  intro he
  have h1 : ("Fetch error: " ++ msg).data.head? = some 'F' := rfl
  rw [he] at h1
  exact absurd h1 (by decide)

theorem checkBody_good (fs : String → Except String Nat) (url : String)
    (links : List CanonicalLink) (r : Status × String)
    (h : checkBody fs url links = Except.ok r) : GoodAcc r := by
  cases links with
  | nil =>
    simp only [checkBody] at h
    injection h with h
    subst h
    exact Or.inr ⟨rfl, by decide⟩
  | cons link rest =>
    simp only [checkBody] at h
    have h0 : GoodAcc (addCheck (decide ((link :: rest).length > 1))
        "Multiple canonical tags detected. " (Status.OK, "")) :=
      good_addCheck _ _ _ (Or.inl ⟨rfl, rfl⟩) (by decide)
    split at h
    · injection h with h
      subst h
      exact good_append _ _ h0 (by decide)
    · split at h
      · exact Except.noConfusion h
      · rename_i canonicalUrl heq
        have h1 : GoodAcc (addCheck (!link.inHead)
            "Canonical tag is not in the head section. " (addCheck _ _ (Status.OK, ""))) :=
          good_addCheck _ _ _ h0 (by decide)
        split at h
        · exact Except.noConfusion h
        · rename_i urlHost hequ
          split at h
          · exact Except.noConfusion h
          · rename_i canonicalHost heqc
            split at h
            · exact Except.noConfusion h
            · rename_i urlProt heqp
              split at h
              · exact Except.noConfusion h
              · rename_i canonicalProt heqq
                injection h with h
                subst h
                apply good_addCheck _ _ _ ?_ (by decide)
                apply good_addCheck _ _ _ ?_ (by decide)
                apply good_addCheck _ _ _ ?_ (by decide)
                apply good_addCheck _ _ _ ?_ (by decide)
                split
                · rename_i code heqf
                  apply good_addCheck _ _ _ ?_ (by decide)
                  apply good_addCheck _ _ _ h1 ?_
                  apply goodHead_append_left
                  apply goodHead_append_left
                  decide
                · rename_i msg heqf
                  apply good_append _ _ h1 ?_
                  apply goodHead_append_left
                  apply goodHead_append_left
                  decide

/-- C7: for every page-check result, the status is OK if and only if
the rendered explanation is the literal "No errors" — no branch of the
evaluator records a reason without setting FAIL, and none sets FAIL
without recording a reason. -/
theorem ok_iff_no_errors (fetchPage : String → Except String (List CanonicalLink))
    (fetchStatus : String → Except String Nat) (url : String) :
    (runCanonicalChecks fetchPage fetchStatus url).status = Status.OK ↔
      (runCanonicalChecks fetchPage fetchStatus url).explanation = "No errors" := by
  unfold runCanonicalChecks
  split
  · rename_i msg heq
    constructor
    · intro h; exact absurd h (by simp)
    · intro h; exact absurd h (fetchError_ne_noerrors msg)
  · rename_i links heq
    split
    · rename_i msg heq2
      constructor
      · intro h; exact absurd h (by simp)
      · intro h; exact absurd h (fetchError_ne_noerrors msg)
    · rename_i st ex heq2
      have hg := checkBody_good fetchStatus url links (st, ex) heq2
      rcases hg with ⟨h1, h2⟩ | ⟨h1, h2⟩
      · simp only at h1 h2
        subst h1
        subst h2
        constructor
        · intro _; rfl
        · intro _; rfl
      · simp only at h1 h2
        subst h1
        have hgt := goodHead_trim ex h2
        have hne : trimStr ex ≠ "" := goodHead_ne_empty _ hgt
        have hnn : trimStr ex ≠ "No errors" := goodHead_ne_noerrors _ hgt
        simp only [renderExplanation, hne, if_false]
        constructor
        · intro h; exact absurd h (by simp)
        · intro h; exact absurd h hnn

/-- Invariants of every parser result: components are lowercase where
the parser lowercases, free of delimiter characters, and the port is in
range and not the scheme default. -/
structure WfUrl (p : UrlParts) : Prop where
  scheme_ok : schemeOk p.scheme.data = true
  scheme_lower : p.scheme.data.map lowerChar = p.scheme.data
  host_ne : p.host.data ≠ []
  host_ok : ∀ c ∈ p.host.data, hostCharOk c = true
  host_lower : p.host.data.map lowerChar = p.host.data
  port_ok : ∀ n, p.port = some n → n ≤ 65535 ∧ defaultPort p.scheme n = false
  path_ne : p.path.data ≠ []
  path_head : p.path.data.head? = some '/'
  path_ok : ∀ c ∈ p.path.data, pathStop c = false
  query_ok : ∀ q, p.query = some q → ∀ c ∈ q.data, c ≠ '#'

theorem map_lowerChar_idem (l : List Char) :
    (l.map lowerChar).map lowerChar = l.map lowerChar := by
  rw [List.map_map]
  apply List.map_congr_left
  intro c _
  exact lowerChar_idem c

theorem schemeOk_map_lower (l : List Char) (h : schemeOk l = true) :
    schemeOk (l.map lowerChar) = true := by
  cases l with
  | nil => exact absurd h (by decide)
  | cons c t =>
    unfold schemeOk at h ⊢
    simp only [List.map_cons, Bool.and_eq_true] at h ⊢
    constructor
    · rw [isAsciiAlpha_lowerChar]
      exact h.1
    · rw [show (lowerChar c :: t.map lowerChar) = (c :: t).map lowerChar by simp]
      rw [List.all_eq_true] at h ⊢
      intro x hx
      obtain ⟨d, hd, rfl⟩ := List.mem_map.mp hx
      rw [schemeCharOk_lowerChar]
      exact h.2 d hd

theorem parseUrl_wf (u : String) (p : UrlParts) (h : parseUrl u = some p) : WfUrl p := by
  simp only [parseUrl] at h
  split at h
  case h_2 => exact Option.noConfusion h
  case h_1 rest heq =>
    split at h
    case isFalse => exact Option.noConfusion h
    case isTrue hscheme =>
      split at h
      case isTrue => exact Option.noConfusion h
      case isFalse hat =>
        split at h
        case isTrue => exact Option.noConfusion h
        case isFalse hhost =>
          split at h
          case h_1 => exact Option.noConfusion h
          case h_2 pn heqport =>
            -- abbreviations matching the parser's lets
            have hostOkRaw : ∀ c ∈ (takeUntil (fun c => c = ':')
                (takeUntil authStop rest).1).1, hostCharOk c = true := by
              intro c hc
              have h1 : (decide (c = ':')) = false :=
                takeUntil_fst_all _ (takeUntil authStop rest).1 c hc
              have hmem : c ∈ (takeUntil authStop rest).1 :=
                (takeUntil_fst_front (fun c => c = ':') _).subset hc
              have h2 : authStop c = false := takeUntil_fst_all authStop rest c hmem
              have h3 : c ≠ '@' := by
                intro hceq
                subst hceq
                exact hat (List.elem_eq_true_of_mem hmem)
              have n1 : c ≠ ':' := by simpa using h1
              unfold authStop at h2
              simp only [Bool.or_eq_false_iff, decide_eq_false_iff_not] at h2
              simp [hostCharOk, n1, h2.1.1, h2.1.2, h2.2, h3]
            have hostOkLow : ∀ c ∈ ((takeUntil (fun c => c = ':')
                (takeUntil authStop rest).1).1.map lowerChar), hostCharOk c = true := by
              intro c hc
              obtain ⟨d, hd, rfl⟩ := List.mem_map.mp hc
              rw [hostCharOk_lowerChar]
              exact hostOkRaw d hd
            have hostNe : ((takeUntil (fun c => c = ':')
                (takeUntil authStop rest).1).1.map lowerChar) ≠ [] := by
              intro hnil
              exact hhost (List.map_eq_nil_iff.mp hnil)
            have portFact : ∀ n,
                (match pn with
                  | some n => if defaultPort ⟨(takeUntil (fun c => c = ':') u.data).1.map lowerChar⟩ n then none else some n
                  | none => none) = some n →
                n ≤ 65535 ∧
                  defaultPort ⟨(takeUntil (fun c => c = ':') u.data).1.map lowerChar⟩ n = false := by
              intro n hn
              cases pn with
              | none => exact Option.noConfusion hn
              | some m =>
                simp only at hn
                split at hn
                · exact Option.noConfusion hn
                · rename_i hdef
                  injection hn with hn
                  subst hn
                  refine ⟨?_, by simpa using hdef⟩
                  split at heqport
                  · injection heqport with heqport
                    exact absurd heqport.symm (by simp)
                  · rename_i ds
                    split at heqport
                    · injection heqport with heqport
                      exact absurd heqport.symm (by simp)
                    · split at heqport
                      · rename_i hdig
                        split at heqport
                        · rename_i hle
                          injection heqport with heqport
                          injection heqport.symm with heqport2
                          rw [heqport2]
                          exact hle
                        · exact Option.noConfusion heqport
                      · exact Option.noConfusion heqport
                  · exact Option.noConfusion heqport
            -- path facts
            have pathNe : (if (takeUntil pathStop (takeUntil authStop rest).2).1 = []
                then ("/" : String)
                else ⟨(takeUntil pathStop (takeUntil authStop rest).2).1⟩).data ≠ [] := by
              split
              · decide
              · rename_i hpp
                simpa using hpp
            have pathHead : (if (takeUntil pathStop (takeUntil authStop rest).2).1 = []
                then ("/" : String)
                else ⟨(takeUntil pathStop (takeUntil authStop rest).2).1⟩).data.head? = some '/' := by
              split
              · rfl
              · rename_i hpp
                rcases takeUntil_snd_cases authStop rest with hc | ⟨c, t, hct, hstop⟩
                · rw [hc] at hpp
                  exact absurd (by rw [takeUntil_nil]) hpp
                · rw [hct] at hpp ⊢
                  by_cases hps : pathStop c = true
                  · rw [takeUntil_cons_stop _ _ _ hps] at hpp
                    exact absurd rfl hpp
                  · simp only [Bool.not_eq_true] at hps
                    rw [takeUntil_cons_not_stop _ _ _ hps]
                    have hcs : c = '/' := by
                      unfold authStop at hstop
                      unfold pathStop at hps
                      simp only [Bool.or_eq_true, decide_eq_true_eq] at hstop
                      rcases hstop with (hcc | hcc) | hcc
                      · exact hcc
                      · rw [hcc] at hps
                        exact absurd hps (by decide)
                      · rw [hcc] at hps
                        exact absurd hps (by decide)
                    rw [hcs]
                    rfl
            have pathOk : ∀ c ∈ (if (takeUntil pathStop (takeUntil authStop rest).2).1 = []
                then ("/" : String)
                else ⟨(takeUntil pathStop (takeUntil authStop rest).2).1⟩).data,
                pathStop c = false := by
              split
              · intro c hc
                rcases List.mem_singleton.mp hc with rfl
                decide
              · exact takeUntil_fst_all pathStop _
            split at h
            case h_1 =>
              injection h with h2
              subst h2
              constructor
              · exact schemeOk_map_lower _ hscheme
              · exact map_lowerChar_idem _
              · exact hostNe
              · exact hostOkLow
              · exact map_lowerChar_idem _
              · exact portFact
              · exact pathNe
              · exact pathHead
              · exact pathOk
              · intro q hq
                exact Option.noConfusion hq
            case h_2 qrest heq2 =>
              split at h
              case h_1 fr heq3 =>
                injection h with h2
                subst h2
                constructor
                · exact schemeOk_map_lower _ hscheme
                · exact map_lowerChar_idem _
                · exact hostNe
                · exact hostOkLow
                · exact map_lowerChar_idem _
                · exact portFact
                · exact pathNe
                · exact pathHead
                · exact pathOk
                · intro q hq c hc
                  injection hq with hq
                  subst hq
                  have := takeUntil_fst_all (fun c => c = '#') qrest c hc
                  simpa using this
              case h_2 =>
                injection h with h2
                subst h2
                constructor
                · exact schemeOk_map_lower _ hscheme
                · exact map_lowerChar_idem _
                · exact hostNe
                · exact hostOkLow
                · exact map_lowerChar_idem _
                · exact portFact
                · exact pathNe
                · exact pathHead
                · exact pathOk
                · intro q hq c hc
                  injection hq with hq
                  subst hq
                  have := takeUntil_fst_all (fun c => c = '#') qrest c hc
                  simpa using this
            case h_3 fr =>
              injection h with h2
              subst h2
              constructor
              · exact schemeOk_map_lower _ hscheme
              · exact map_lowerChar_idem _
              · exact hostNe
              · exact hostOkLow
              · exact map_lowerChar_idem _
              · exact portFact
              · exact pathNe
              · exact pathHead
              · exact pathOk
              · intro q hq
                exact Option.noConfusion hq
            case h_4 => exact Option.noConfusion h

theorem ne_of_bool (P : Char → Bool) (c d : Char) (hc : P c = true) (hd : P d = false) :
    c ≠ d := by
  intro he
  rw [he, hd] at hc
  exact Bool.noConfusion hc

theorem schemeOk_chars (l : List Char) (h : schemeOk l = true) :
    ∀ c ∈ l, schemeCharOk c = true := by
  cases l with
  | nil => simp
  | cons c t =>
    unfold schemeOk at h
    simp only [Bool.and_eq_true] at h
    rw [List.all_eq_true] at h
    exact h.2

theorem schemeChar_not_colon_stop (c : Char) (h : schemeCharOk c = true) :
    (fun c => decide (c = ':')) c = false := by
  have := ne_of_bool schemeCharOk c ':' h (by decide)
  simpa using this

theorem hostChar_not_auth_stop (c : Char) (h : hostCharOk c = true) :
    authStop c = false := by
  have h1 := ne_of_bool hostCharOk c '/' h (by decide)
  have h2 := ne_of_bool hostCharOk c '?' h (by decide)
  have h3 := ne_of_bool hostCharOk c '#' h (by decide)
  simp [authStop, h1, h2, h3]

theorem digit_not_auth_stop (c : Char) (h : isAsciiDigit c = true) :
    authStop c = false := by
  have h1 := ne_of_bool isAsciiDigit c '/' h (by decide)
  have h2 := ne_of_bool isAsciiDigit c '?' h (by decide)
  have h3 := ne_of_bool isAsciiDigit c '#' h (by decide)
  simp [authStop, h1, h2, h3]

theorem pathChar_not_path_stop (c : Char) (h : pathStop c = false) :
    pathStop c = false := h

theorem serializeUrl_data (p : UrlParts) :
    (serializeUrl p).data = p.scheme.data ++ ':' :: '/' :: '/' ::
      (p.host.data ++ (portSuffix p.port).data ++ p.path.data ++
        (match p.query with | some q => '?' :: q.data | none => []) ++
        (match p.fragment with | some f => '#' :: f.data | none => [])) := by
  unfold serializeUrl
  simp only [strData_append]
  cases p.query <;> cases p.fragment <;> simp [strData_append]

theorem portSuffix_data (n : Nat) : (portSuffix (some n)).data = ':' :: natToChars n := rfl

theorem portSuffix_none : (portSuffix none).data = [] := rfl

theorem parse_serialize (p : UrlParts) (wf : WfUrl p) :
    parseUrl (serializeUrl p) = some p := by
  obtain ⟨so, sl, hne, hok, hl, po, pne, ph, pok, qok⟩ := wf
  have hpath0 : ∃ pt, p.path.data = '/' :: pt := by
    cases hpd : p.path.data with
    | nil => exact absurd hpd pne
    | cons c t =>
      rw [hpd] at ph
      simp only [List.head?_cons, Option.some.injEq] at ph
      exact ⟨t, by rw [ph]⟩
  obtain ⟨pt, hpt⟩ := hpath0
  set qd : List Char := (match p.query with | some q => '?' :: q.data | none => []) with hqd
  set fd : List Char := (match p.fragment with | some f => '#' :: f.data | none => []) with hfd
  clear_value qd fd
  have hhostStop : ∀ c ∈ p.host.data, authStop c = false :=
    fun c hc => hostChar_not_auth_stop c (hok c hc)
  have hportStop : ∀ c ∈ (portSuffix p.port).data, authStop c = false := by
    cases p.port with
    | none => simp [portSuffix_none]
    | some n =>
      rw [portSuffix_data]
      intro c hc
      rcases List.mem_cons.mp hc with rfl | hc
      · decide
      · exact digit_not_auth_stop c (natToChars_all_digits n c hc)
  have hauthStop : ∀ c ∈ p.host.data ++ (portSuffix p.port).data, authStop c = false := by
    intro c hc
    rcases List.mem_append.mp hc with hc | hc
    · exact hhostStop c hc
    · exact hportStop c hc
  have hhostColon : ∀ c ∈ p.host.data, (fun c => decide (c = ':')) c = false := by
    intro c hc
    have := ne_of_bool hostCharOk c ':' (hok c hc) (by decide)
    simpa using this
  have hat : (p.host.data ++ (portSuffix p.port).data).contains '@' = false := by
    apply contains_eq_false_of_all
    intro d hd
    rcases List.mem_append.mp hd with hd | hd
    · exact ne_of_bool hostCharOk d '@' (hok d hd) (by decide)
    · cases hpo2 : p.port with
      | none => rw [hpo2, portSuffix_none] at hd; exact absurd hd (by simp)
      | some n =>
        rw [hpo2, portSuffix_data] at hd
        rcases List.mem_cons.mp hd with rfl | hd
        · decide
        · exact ne_of_bool isAsciiDigit d '@' (natToChars_all_digits n d hd) (by decide)
  simp only [parseUrl]
  rw [serializeUrl_data]
  rw [← hqd, ← hfd]
  rw [takeUntil_append _ _ _ (fun c hc => schemeChar_not_colon_stop c (schemeOk_chars _ so c hc))]
  rw [takeUntil_cons_stop _ _ _ (by decide)]
  dsimp only
  rw [List.append_nil]
  split
  case h_2 hne2 => exact (hne2 _ rfl).elim
  case h_1 rest heq =>
    injection heq with _ heq
    injection heq with _ heq
    injection heq with _ heq
    subst heq
    rw [if_pos so]
    have hre : p.host.data ++ (portSuffix p.port).data ++ p.path.data ++ qd ++ fd
        = (p.host.data ++ (portSuffix p.port).data) ++ (p.path.data ++ (qd ++ fd)) := by
      simp [List.append_assoc]
    rw [hre]
    rw [takeUntil_append _ _ _ hauthStop]
    rw [hpt, List.cons_append,
      takeUntil_cons_stop authStop '/' (pt ++ (qd ++ fd)) (by decide)]
    dsimp only
    rw [List.append_nil]
    simp only [hat, Bool.false_eq_true, if_false]
    rw [takeUntil_append _ _ _ hhostColon]
    have hpathsplit : takeUntil pathStop ('/' :: (pt ++ (qd ++ fd)))
        = (p.path.data ++ (takeUntil pathStop (qd ++ fd)).1,
            (takeUntil pathStop (qd ++ fd)).2) := by
      have h1 := takeUntil_append pathStop p.path.data (qd ++ fd) pok
      conv at h1 => lhs; rw [hpt, List.cons_append]
      exact h1
    rw [hpathsplit]
    cases hpo : p.port with
    | none =>
      rw [portSuffix_none, takeUntil_nil]
      rw [List.append_nil]
      rw [if_neg hne]
      rw [hl, strMk_data, sl, strMk_data]
      cases hq : p.query with
      | none =>
        rw [hq] at hqd
        dsimp only at hqd
        subst hqd
        cases hf : p.fragment with
        | none =>
          rw [hf] at hfd
          dsimp only at hfd
          subst hfd
          rw [List.append_nil, takeUntil_nil]
          dsimp only
          rw [List.append_nil, if_neg pne, strMk_data]
          conv_rhs => rw [show p = ⟨p.scheme, p.host, p.port, p.path, p.query, p.fragment⟩
            from rfl, hpo, hq, hf]
        | some f =>
          rw [hf] at hfd
          dsimp only at hfd
          subst hfd
          rw [List.nil_append,
            takeUntil_cons_stop pathStop '#' f.data (by decide)]
          dsimp only
          split
          case h_1 heq2 => exact List.noConfusion heq2
          case h_2 qrest heq2 =>
            injection heq2 with h3 _
            exact absurd h3 (by decide)
          case h_3 fr heq2 =>
            injection heq2 with _ h4
            subst h4
            rw [List.append_nil, if_neg pne, strMk_data, strMk_data]
            conv_rhs => rw [show p = ⟨p.scheme, p.host, p.port, p.path, p.query, p.fragment⟩
              from rfl, hpo, hq, hf]
          case h_4 head tail hm1 hm2 heq2 =>
            injection heq2 with h5 _
            exact absurd h5.symm hm2
      | some q =>
        rw [hq] at hqd
        dsimp only at hqd
        subst hqd
        have hqclear : ∀ c ∈ q.data, (fun c => decide (c = '#')) c = false := by
          intro c hc
          simpa using qok q hq c hc
        cases hf : p.fragment with
        | none =>
          rw [hf] at hfd
          dsimp only at hfd
          subst hfd
          rw [List.append_nil,
            takeUntil_cons_stop pathStop '?' q.data (by decide)]
          dsimp only
          split
          case h_1 heq2 => exact List.noConfusion heq2
          case h_2 qrest heq2 =>
            injection heq2 with _ h4
            subst h4
            rw [takeUntil_all_clear _ _ hqclear]
            dsimp only
            rw [List.append_nil, if_neg pne, strMk_data, strMk_data]
            conv_rhs => rw [show p = ⟨p.scheme, p.host, p.port, p.path, p.query, p.fragment⟩
              from rfl, hpo, hq, hf]
          case h_3 fr heq2 =>
            injection heq2 with h3 _
            exact absurd h3 (by decide)
          case h_4 head tail hm1 hm2 heq2 =>
            injection heq2 with h5 _
            exact absurd h5.symm hm1
        | some f =>
          rw [hf] at hfd
          dsimp only at hfd
          subst hfd
          have happ : ('?' :: q.data) ++ ('#' :: f.data) = '?' :: (q.data ++ '#' :: f.data) := by
            simp
          rw [happ, takeUntil_cons_stop pathStop '?' (q.data ++ '#' :: f.data) (by decide)]
          dsimp only
          split
          case h_1 heq2 => exact List.noConfusion heq2
          case h_2 qrest heq2 =>
            injection heq2 with _ h4
            subst h4
            rw [takeUntil_append _ _ _ hqclear,
              takeUntil_cons_stop (fun c => decide (c = '#')) '#' f.data (by decide)]
            dsimp only
            split
            case h_1 fr heq3 =>
              injection heq3 with _ h5
              subst h5
              rw [List.append_nil, List.append_nil, if_neg pne, strMk_data, strMk_data,
                strMk_data]
              conv_rhs => rw [show p = ⟨p.scheme, p.host, p.port, p.path, p.query, p.fragment⟩
                from rfl, hpo, hq, hf]
            case h_2 xv hm1 =>
              exact absurd rfl (hm1 f.data)
          case h_3 fr heq2 =>
            injection heq2 with h3 _
            exact absurd h3 (by decide)
          case h_4 head tail hm1 hm2 heq2 =>
            injection heq2 with h5 _
            exact absurd h5.symm hm1
    | some n =>
      rw [portSuffix_data,
        takeUntil_cons_stop (fun c => decide (c = ':')) ':' (natToChars n) (by decide)]
      dsimp only
      rw [List.append_nil]
      rw [if_neg hne]
      have hport0 :
          (match ':' :: natToChars n with
            | [] => some none
            | ':' :: ds =>
              if ds = [] then some none
              else
                if ds.all isAsciiDigit = true then
                  if digitsToNat ds ≤ 65535 then some (some (digitsToNat ds)) else none
                else none
            | head :: tail => none) = some (some n) := by
        split
        case h_1 heq2 => exact List.noConfusion heq2
        case h_2 ds heq2 =>
          injection heq2 with _ h4
          subst h4
          rw [if_neg (natToChars_ne_nil n),
            if_pos (List.all_eq_true.mpr (natToChars_all_digits n)),
            digitsToNat_natToChars,
            if_pos (po n hpo).1]
        case h_3 head tail hm1 heq2 =>
          injection heq2 with h5 _
          exact absurd h5.symm hm1
      rw [hport0]
      dsimp only
      rw [hl, strMk_data, sl, strMk_data]
      rw [if_neg (by rw [(po n hpo).2]; exact Bool.false_ne_true)]
      cases hq : p.query with
      | none =>
        rw [hq] at hqd
        dsimp only at hqd
        subst hqd
        cases hf : p.fragment with
        | none =>
          rw [hf] at hfd
          dsimp only at hfd
          subst hfd
          rw [List.append_nil, takeUntil_nil]
          dsimp only
          rw [List.append_nil, if_neg pne, strMk_data]
          conv_rhs => rw [show p = ⟨p.scheme, p.host, p.port, p.path, p.query, p.fragment⟩
            from rfl, hpo, hq, hf]
        | some f =>
          rw [hf] at hfd
          dsimp only at hfd
          subst hfd
          rw [List.nil_append,
            takeUntil_cons_stop pathStop '#' f.data (by decide)]
          dsimp only
          split
          case h_1 heq2 => exact List.noConfusion heq2
          case h_2 qrest heq2 =>
            injection heq2 with h3 _
            exact absurd h3 (by decide)
          case h_3 fr heq2 =>
            injection heq2 with _ h4
            subst h4
            rw [List.append_nil, if_neg pne, strMk_data, strMk_data]
            conv_rhs => rw [show p = ⟨p.scheme, p.host, p.port, p.path, p.query, p.fragment⟩
              from rfl, hpo, hq, hf]
          case h_4 head tail hm1 hm2 heq2 =>
            injection heq2 with h5 _
            exact absurd h5.symm hm2
      | some q =>
        rw [hq] at hqd
        dsimp only at hqd
        subst hqd
        have hqclear : ∀ c ∈ q.data, (fun c => decide (c = '#')) c = false := by
          intro c hc
          simpa using qok q hq c hc
        cases hf : p.fragment with
        | none =>
          rw [hf] at hfd
          dsimp only at hfd
          subst hfd
          rw [List.append_nil,
            takeUntil_cons_stop pathStop '?' q.data (by decide)]
          dsimp only
          split
          case h_1 heq2 => exact List.noConfusion heq2
          case h_2 qrest heq2 =>
            injection heq2 with _ h4
            subst h4
            rw [takeUntil_all_clear _ _ hqclear]
            dsimp only
            rw [List.append_nil, if_neg pne, strMk_data, strMk_data]
            conv_rhs => rw [show p = ⟨p.scheme, p.host, p.port, p.path, p.query, p.fragment⟩
              from rfl, hpo, hq, hf]
          case h_3 fr heq2 =>
            injection heq2 with h3 _
            exact absurd h3 (by decide)
          case h_4 head tail hm1 hm2 heq2 =>
            injection heq2 with h5 _
            exact absurd h5.symm hm1
        | some f =>
          rw [hf] at hfd
          dsimp only at hfd
          subst hfd
          have happ : ('?' :: q.data) ++ ('#' :: f.data) = '?' :: (q.data ++ '#' :: f.data) := by
            simp
          rw [happ, takeUntil_cons_stop pathStop '?' (q.data ++ '#' :: f.data) (by decide)]
          dsimp only
          split
          case h_1 heq2 => exact List.noConfusion heq2
          case h_2 qrest heq2 =>
            injection heq2 with _ h4
            subst h4
            rw [takeUntil_append _ _ _ hqclear,
              takeUntil_cons_stop (fun c => decide (c = '#')) '#' f.data (by decide)]
            dsimp only
            split
            case h_1 fr heq3 =>
              injection heq3 with _ h5
              subst h5
              rw [List.append_nil, List.append_nil, if_neg pne, strMk_data, strMk_data,
                strMk_data]
              conv_rhs => rw [show p = ⟨p.scheme, p.host, p.port, p.path, p.query, p.fragment⟩
                from rfl, hpo, hq, hf]
            case h_2 xv hm1 =>
              exact absurd rfl (hm1 f.data)
          case h_3 fr heq2 =>
            injection heq2 with h3 _
            exact absurd h3 (by decide)
          case h_4 head tail hm1 hm2 heq2 =>
            injection heq2 with h5 _
            exact absurd h5.symm hm1


theorem resolveUrl_ok_parse (href base c : String)
    (h : resolveUrl href base = Except.ok c) : ∃ r, parseUrl c = some r := by
  unfold resolveUrl at h
  split at h
  · rename_i p heq
    injection h with h
    subst h
    exact ⟨p, parse_serialize p (parseUrl_wf href p heq)⟩
  · rename_i heq
    split at h
    · exact Except.noConfusion h
    · rename_i b heqb
      dsimp only at h
      split at h
      · rename_i r heqr
        injection h with h
        subst h
        exact ⟨r, parse_serialize r (parseUrl_wf _ r heqr)⟩
      · exact Except.noConfusion h

theorem strExt (a b : String) (h : a.data = b.data) : a = b := by
  have h2 := congrArg String.mk h
  rwa [strMk_data, strMk_data] at h2

theorem map_lower_fixed (l : List Char) (h : ∀ c ∈ l, lowerChar c = c) :
    l.map lowerChar = l := by
  rw [List.map_congr_left h]
  exact List.map_id l

theorem toLowerStr_idem (s : String) : toLowerStr (toLowerStr s) = toLowerStr s := by
  unfold toLowerStr
  exact congrArg String.mk (map_lowerChar_idem s.data)

theorem strReplaceFirst_no_match (s pat rep : String)
    (h : ¬ pat.data <:+: s.data) : strReplaceFirst s pat rep = s := by
  unfold strReplaceFirst
  rw [replaceFirstList_no_match _ _ _ h, strMk_data]

theorem takeBefore_id (c : Char) (s : String) (h : c ∉ s.data) :
    takeBefore c s = s := by
  unfold takeBefore
  have h2 : ∀ d ∈ s.data, (fun d => decide (d = c)) d = false := by
    intro d hd
    simp only [decide_eq_false_iff_not]
    intro he
    exact h (he ▸ hd)
  rw [takeUntil_all_clear _ _ h2]

theorem serialize_no_mark (p : UrlParts) (wf : WfUrl p)
    (hq : p.query = none) (hf : p.fragment = none) (m : Char)
    (hm : schemeCharOk m = false) (hm2 : hostCharOk m = false)
    (hm3 : pathStop m = true) (hm4 : isAsciiDigit m = false)
    (hm5 : m ≠ ':' ∧ m ≠ '/') :
    m ∉ (serializeUrl p).data := by
  obtain ⟨so, sl, hne, hok, hl, po, pne, ph, pok, qok⟩ := wf
  rw [serializeUrl_data, hq, hf]
  intro hmem
  simp only [List.append_nil] at hmem
  rcases List.mem_append.mp hmem with hc | hc
  · exact absurd (schemeOk_chars _ so m hc) (by rw [hm]; exact Bool.false_ne_true)
  · rcases List.mem_cons.mp hc with he | hc
    · exact hm5.1 he
    · rcases List.mem_cons.mp hc with he | hc
      · exact hm5.2 he
      · rcases List.mem_cons.mp hc with he | hc
        · exact hm5.2 he
        · rcases List.mem_append.mp hc with hc | hc
          · rcases List.mem_append.mp hc with hc | hc
            · exact absurd (hok m hc) (by rw [hm2]; exact Bool.false_ne_true)
            · cases hpo : p.port with
              | none => rw [hpo, portSuffix_none] at hc; exact absurd hc (by simp)
              | some n =>
                rw [hpo, portSuffix_data] at hc
                rcases List.mem_cons.mp hc with he | hc
                · exact hm5.1 he
                · exact absurd (natToChars_all_digits n m hc)
                    (by rw [hm4]; exact Bool.false_ne_true)
          · have h6 := pok m hc
            rw [hm3] at h6
            exact Bool.noConfusion h6

/-- The parsed URL with query and fragment dropped and the path
lowercased: the shape of the string the normalizer works on after its
lowercasing step, for a query- and fragment-free parse result. -/
def pLower (p : UrlParts) : UrlParts :=
  ⟨p.scheme, p.host, p.port, toLowerStr p.path, none, none⟩

/-- `pLower` with the trailing path character dropped: the shape after
the normalizer's trailing-slash strip. -/
def pDrop (p : UrlParts) : UrlParts :=
  ⟨p.scheme, p.host, p.port, dropLastStr (toLowerStr p.path), none, none⟩

theorem portSuffix_lower (port : Option Nat) :
    (portSuffix port).data.map lowerChar = (portSuffix port).data := by
  cases port with
  | none => rw [portSuffix_none]; rfl
  | some n =>
    rw [portSuffix_data]
    simp only [List.map_cons]
    rw [map_lower_fixed (natToChars n)
      (fun c hc => lowerChar_digit c (natToChars_all_digits n c hc))]
    rfl

theorem lowerSerialize (p : UrlParts) (wf : WfUrl p)
    (hq : p.query = none) (hf : p.fragment = none) :
    toLowerStr (serializeUrl p) = serializeUrl (pLower p) := by
  apply strExt
  show (serializeUrl p).data.map lowerChar = _
  rw [serializeUrl_data p, serializeUrl_data (pLower p), hq, hf]
  simp only [pLower, List.append_nil, List.map_append, List.map_cons]
  rw [wf.scheme_lower, wf.host_lower, portSuffix_lower]
  rfl

theorem wf_pLower (p : UrlParts) (wf : WfUrl p) : WfUrl (pLower p) := by
  obtain ⟨so, sl, hne, hok, hl, po, pne, ph, pok, qok⟩ := wf
  refine ⟨so, sl, hne, hok, hl, po, ?_, ?_, ?_, ?_⟩
  · simp only [pLower, toLowerStr]
    simpa using pne
  · simp only [pLower, toLowerStr]
    rw [List.head?_map]
    cases hpd : p.path.data with
    | nil => exact absurd hpd pne
    | cons c t =>
      rw [hpd] at ph
      simp only [List.head?_cons, Option.some.injEq] at ph
      subst ph
      rfl
  · intro c hc
    simp only [pLower, toLowerStr] at hc
    obtain ⟨d, hd, rfl⟩ := List.mem_map.mp hc
    rw [pathStop_lowerChar]
    exact pok d hd
  · intro q hq
    exact Option.noConfusion hq

theorem dropLast_append_left (a b : List Char) (hb : b ≠ []) :
    (a ++ b).dropLast = a ++ b.dropLast := by
  induction a with
  | nil => simp
  | cons c t ih =>
    rw [List.cons_append, List.dropLast_cons_of_ne_nil (by simp [hb]), ih, List.cons_append]

theorem serialize_getLast (pp : UrlParts) (hq : pp.query = none)
    (hf : pp.fragment = none) (hpne : pp.path.data ≠ []) :
    (serializeUrl pp).data.getLast? = pp.path.data.getLast? := by
  rw [serializeUrl_data, hq, hf]
  simp only [List.append_nil]
  have hre : pp.scheme.data ++ ':' :: '/' :: '/' ::
      (pp.host.data ++ (portSuffix pp.port).data ++ pp.path.data)
      = (pp.scheme.data ++ ':' :: '/' :: '/' ::
        (pp.host.data ++ (portSuffix pp.port).data)) ++ pp.path.data := by
    simp
  rw [hre, List.getLast?_append_of_ne_nil _ hpne]

theorem serialize_dropLast (pp : UrlParts) (hq : pp.query = none)
    (hf : pp.fragment = none) (hpne : pp.path.data ≠ []) :
    (serializeUrl pp).data.dropLast
      = (serializeUrl ⟨pp.scheme, pp.host, pp.port, dropLastStr pp.path, none, none⟩).data := by
  rw [serializeUrl_data, serializeUrl_data, hq, hf]
  simp only [List.append_nil, dropLastStr]
  have hre : pp.scheme.data ++ ':' :: '/' :: '/' ::
      (pp.host.data ++ (portSuffix pp.port).data ++ pp.path.data)
      = (pp.scheme.data ++ ':' :: '/' :: '/' ::
        (pp.host.data ++ (portSuffix pp.port).data)) ++ pp.path.data := by
    simp
  rw [hre, dropLast_append_left _ _ hpne]
  simp

/-- Does the path end in a double slash?  (The one trailing-slash shape
on which a single strip leaves another trailing slash.) -/
def endsWith2Slash (s : String) : Bool :=
  match s.data.reverse with
  | '/' :: '/' :: _ => true
  | _ => false

theorem path_shape (p : UrlParts) (wf : WfUrl p)
    (hend : (toLowerStr p.path).data.getLast? = some '/') (hne2 : p.path ≠ "/") :
    ∃ t, (toLowerStr p.path).data = '/' :: t ∧ t ≠ [] := by
  have hWL := wf_pLower p wf
  have hhd : (toLowerStr p.path).data.head? = some '/' := hWL.path_head
  cases hpd : (toLowerStr p.path).data with
  | nil => exact absurd hpd hWL.path_ne
  | cons c t =>
    rw [hpd] at hhd
    simp only [List.head?_cons, Option.some.injEq] at hhd
    subst hhd
    refine ⟨t, rfl, ?_⟩
    intro hnil
    subst hnil
    rw [hpd] at hend
    simp only [List.getLast?_singleton, Option.some.injEq] at hend
    cases hq2 : p.path.data with
    | nil => exact absurd hq2 wf.path_ne
    | cons d t2 =>
      have hmap : (toLowerStr p.path).data = lowerChar d :: t2.map lowerChar := by
        simp only [toLowerStr]
        rw [hq2]
        rfl
      rw [hpd] at hmap
      injection hmap with hm1 hm2
      have hd2 : d = '/' := lowerChar_eq_reflect d '/' (by decide) hm1.symm
      have ht2 : t2 = [] := by
        cases t2 with
        | nil => rfl
        | cons x y => exact List.noConfusion hm2
      apply hne2
      apply strExt
      rw [hq2, hd2, ht2]

theorem dropped_last_ne_slash (p : UrlParts) (wf : WfUrl p)
    (hend : (toLowerStr p.path).data.getLast? = some '/')
    (hne2 : p.path ≠ "/") (h2s : endsWith2Slash p.path = false) :
    ¬ ((toLowerStr p.path).data.dropLast.getLast? = some '/') := by
  have hmapRev : (toLowerStr p.path).data.reverse = p.path.data.reverse.map lowerChar := by
    simp only [toLowerStr]
    rw [← List.map_reverse]
  cases hr : p.path.data.reverse with
  | nil =>
    exact absurd (by simpa using congrArg List.reverse hr) wf.path_ne
  | cons e r0 =>
    have he : lowerChar e = '/' := by
      have h1 : (toLowerStr p.path).data.reverse.head? = some '/' := by
        rw [List.head?_reverse]
        exact hend
      rw [hmapRev, hr] at h1
      simpa using h1
    have he2 : e = '/' := lowerChar_eq_reflect e '/' (by decide) he
    cases r0 with
    | nil =>
      exfalso
      apply hne2
      apply strExt
      have : p.path.data = ['/'] := by
        have h2 := congrArg List.reverse hr
        simpa [he2] using h2
      rw [this]
    | cons g r1 =>
      by_cases hg : g = '/'
      · exfalso
        unfold endsWith2Slash at h2s
        rw [hr, he2, hg] at h2s
        exact Bool.noConfusion h2s
      · intro hlast
        have h3 : (toLowerStr p.path).data.dropLast.getLast? = some (lowerChar g) := by
          rw [← List.head?_reverse, ← List.tail_reverse, hmapRev, hr]
          simp only [List.map_cons, List.tail_cons, List.head?_cons]
        rw [h3] at hlast
        simp only [Option.some.injEq] at hlast
        exact hg (lowerChar_eq_reflect g '/' (by decide) hlast)

theorem wf_pDrop (p : UrlParts) (wf : WfUrl p)
    (hend : (toLowerStr p.path).data.getLast? = some '/') (hne2 : p.path ≠ "/") :
    WfUrl (pDrop p) := by
  have hWL := wf_pLower p wf
  obtain ⟨t, ht, htne⟩ := path_shape p wf hend hne2
  refine ⟨wf.scheme_ok, wf.scheme_lower, wf.host_ne, wf.host_ok, wf.host_lower, wf.port_ok,
    ?_, ?_, ?_, ?_⟩
  · simp only [pDrop, dropLastStr]
    rw [ht, List.dropLast_cons_of_ne_nil htne]
    simp
  · simp only [pDrop, dropLastStr]
    rw [ht, List.dropLast_cons_of_ne_nil htne]
    rfl
  · intro c hc
    simp only [pDrop, dropLastStr] at hc
    exact hWL.path_ok c ((List.dropLast_prefix _).subset hc)
  · intro q hq
    exact Option.noConfusion hq

theorem not_infix_dropLast (pat l : List Char) (h : ¬ pat <:+: l) :
    ¬ pat <:+: l.dropLast :=
  fun hi => h (hi.trans (List.dropLast_prefix l).isInfix)

theorem normalize_fixed (pp : UrlParts) (wf : WfUrl pp)
    (hlow : toLowerStr (serializeUrl pp) = serializeUrl pp)
    (hq : pp.query = none) (hf : pp.fragment = none)
    (hslash : endsWithSlash (serializeUrl pp) = false ∨ pp.path = "/")
    (h80 : ¬ ((":80/" : String).data <:+: (serializeUrl pp).data))
    (h443 : ¬ ((":443/" : String).data <:+: (serializeUrl pp).data))
    (hwww : ¬ (("://www." : String).data <:+: (serializeUrl pp).data)) :
    normalizeUrl (serializeUrl pp) = serializeUrl pp := by
  unfold normalizeUrl
  rw [parse_serialize pp wf]
  dsimp only
  rw [hlow]
  have hcond : (endsWithSlash (serializeUrl pp) && decide (pp.path ≠ "/")) = false := by
    rcases hslash with h | h
    · rw [h, Bool.false_and]
    · rw [h]
      simp
  rw [hcond]
  simp only [Bool.false_eq_true, if_false]
  rw [strReplaceFirst_no_match _ _ _ h80, strReplaceFirst_no_match _ _ _ h443,
    strReplaceFirst_no_match _ _ _ hwww,
    takeBefore_id '?' _ (serialize_no_mark pp wf hq hf '?' (by decide) (by decide)
      (by decide) (by decide) ⟨by decide, by decide⟩),
    takeBefore_id '#' _ (serialize_no_mark pp wf hq hf '#' (by decide) (by decide)
      (by decide) (by decide) ⟨by decide, by decide⟩)]

/-- C2 corrected: the normalizer is not idempotent on all parseable
URLs (a query-bearing URL with a trailing slash is a counterexample);
idempotence does hold on the well-behaved fragment of its domain —
parseable URLs without query or fragment whose lowercased serialization
contains none of the textual strip patterns `":80/"`, `":443/"`,
`"://www."` and whose path does not end in a double slash. -/
theorem normalize_idem_amended (u : String) (p : UrlParts)
    (hu : parseUrl u = some p) (hq : p.query = none) (hf : p.fragment = none)
    (h80 : ¬ ((":80/" : String).data <:+: (toLowerStr (serializeUrl p)).data))
    (h443 : ¬ ((":443/" : String).data <:+: (toLowerStr (serializeUrl p)).data))
    (hwww : ¬ (("://www." : String).data <:+: (toLowerStr (serializeUrl p)).data))
    (h2s : endsWith2Slash p.path = false) :
    normalizeUrl (normalizeUrl u) = normalizeUrl u := by
  have wf := parseUrl_wf u p hu
  have hlowser := lowerSerialize p wf hq hf
  have wfL := wf_pLower p wf
  rw [hlowser] at h80 h443 hwww
  have hlowL : toLowerStr (serializeUrl (pLower p)) = serializeUrl (pLower p) := by
    rw [← hlowser]
    exact toLowerStr_idem _
  cases hcb : endsWithSlash (serializeUrl (pLower p)) && decide (p.path ≠ "/") with
  | false =>
    have hfirst : normalizeUrl u = serializeUrl (pLower p) := by
      unfold normalizeUrl
      rw [hu]
      dsimp only
      rw [hlowser, hcb]
      simp only [Bool.false_eq_true, if_false]
      rw [strReplaceFirst_no_match _ _ _ h80, strReplaceFirst_no_match _ _ _ h443,
        strReplaceFirst_no_match _ _ _ hwww,
        takeBefore_id '?' _ (serialize_no_mark (pLower p) wfL rfl rfl '?' (by decide)
          (by decide) (by decide) (by decide) ⟨by decide, by decide⟩),
        takeBefore_id '#' _ (serialize_no_mark (pLower p) wfL rfl rfl '#' (by decide)
          (by decide) (by decide) (by decide) ⟨by decide, by decide⟩)]
    rw [hfirst]
    apply normalize_fixed (pLower p) wfL hlowL rfl rfl ?_ h80 h443 hwww
    rcases Bool.and_eq_false_iff.mp hcb with h | h
    · exact Or.inl h
    · right
      have hp : p.path = "/" := by
        have h2 : ¬ (p.path ≠ "/") := of_decide_eq_false h
        simpa using h2
      show toLowerStr p.path = "/"
      rw [hp]
      rfl
  | true =>
    have hand := (Bool.and_eq_true _ _).mp hcb
    have hendS : endsWithSlash (serializeUrl (pLower p)) = true := hand.1
    have hpne2 : p.path ≠ "/" := of_decide_eq_true hand.2
    have hendL : (toLowerStr p.path).data.getLast? = some '/' := by
      have h1 : (serializeUrl (pLower p)).data.getLast?
          = (pLower p).path.data.getLast? :=
        serialize_getLast (pLower p) rfl rfl wfL.path_ne
      unfold endsWithSlash at hendS
      rw [h1] at hendS
      exact of_decide_eq_true hendS
    have wfD := wf_pDrop p wf hendL hpne2
    have hdropser : dropLastStr (serializeUrl (pLower p)) = serializeUrl (pDrop p) := by
      apply strExt
      show (serializeUrl (pLower p)).data.dropLast = _
      rw [serialize_dropLast (pLower p) rfl rfl wfL.path_ne]
      rfl
    have hdropdata : (serializeUrl (pDrop p)).data = (serializeUrl (pLower p)).data.dropLast := by
      rw [← hdropser]
      rfl
    have h80d : ¬ ((":80/" : String).data <:+: (serializeUrl (pDrop p)).data) := by
      rw [hdropdata]
      exact not_infix_dropLast _ _ h80
    have h443d : ¬ ((":443/" : String).data <:+: (serializeUrl (pDrop p)).data) := by
      rw [hdropdata]
      exact not_infix_dropLast _ _ h443
    have hwwwd : ¬ (("://www." : String).data <:+: (serializeUrl (pDrop p)).data) := by
      rw [hdropdata]
      exact not_infix_dropLast _ _ hwww
    have hfirst : normalizeUrl u = serializeUrl (pDrop p) := by
      unfold normalizeUrl
      rw [hu]
      dsimp only
      rw [hlowser, hcb]
      simp only [if_true]
      rw [hdropser]
      rw [strReplaceFirst_no_match _ _ _ h80d, strReplaceFirst_no_match _ _ _ h443d,
        strReplaceFirst_no_match _ _ _ hwwwd,
        takeBefore_id '?' _ (serialize_no_mark (pDrop p) wfD rfl rfl '?' (by decide)
          (by decide) (by decide) (by decide) ⟨by decide, by decide⟩),
        takeBefore_id '#' _ (serialize_no_mark (pDrop p) wfD rfl rfl '#' (by decide)
          (by decide) (by decide) (by decide) ⟨by decide, by decide⟩)]
    rw [hfirst]
    have hlowD : toLowerStr (serializeUrl (pDrop p)) = serializeUrl (pDrop p) := by
      apply strExt
      show (serializeUrl (pDrop p)).data.map lowerChar = (serializeUrl (pDrop p)).data
      rw [hdropdata, List.map_dropLast]
      have h2 : (serializeUrl (pLower p)).data.map lowerChar
          = (serializeUrl (pLower p)).data := by
        have h3 := congrArg String.data hlowL
        exact h3
      rw [h2]
    apply normalize_fixed (pDrop p) wfD hlowD rfl rfl ?_ h80d h443d hwwwd
    left
    have h1 : (serializeUrl (pDrop p)).data.getLast?
        = (pDrop p).path.data.getLast? :=
      serialize_getLast (pDrop p) rfl rfl wfD.path_ne
    unfold endsWithSlash
    rw [h1]
    apply decide_eq_false
    exact dropped_last_ne_slash p wf hendL hpne2 h2s

theorem addCheck_fst_fail (b : Bool) (ph : String) (acc : Status × String)
    (h : acc.1 = Status.FAIL) : (addCheck b ph acc).1 = Status.FAIL := by
  unfold addCheck
  cases b
  · simpa using h
  · rfl

theorem addCheck_true_fst (ph : String) (acc : Status × String) :
    (addCheck true ph acc).1 = Status.FAIL := rfl

theorem addCheck_snd_mid (pat : List Char) (b : Bool) (ph : String)
    (acc : Status × String) (h : pat <:+: acc.2.data) :
    pat <:+: (addCheck b ph acc).2.data := by
  unfold addCheck
  cases b
  · simpa using h
  · simp only [if_true]
    rw [strData_append]
    exact infix_append_right _ _ _ h

theorem runCanonicalChecks_ok (fetchPage : String → Except String (List CanonicalLink))
    (fetchStatus : String → Except String Nat) (url : String)
    (links : List CanonicalLink) (r : Status × String)
    (hfp : fetchPage url = Except.ok links)
    (hcb : checkBody fetchStatus url links = Except.ok r) :
    runCanonicalChecks fetchPage fetchStatus url = ⟨url, r.1, renderExplanation r.2⟩ := by
  unfold runCanonicalChecks
  rw [hfp]
  dsimp only
  rw [hcb]

theorem runCanonicalChecksV2_ok (fetchPage : String → Except String (List CanonicalLink))
    (fetchStatus : String → Except String Nat) (url : String)
    (links : List CanonicalLink) (r : Status × String)
    (hfp : fetchPage url = Except.ok links)
    (hcb : checkBodyV2 fetchStatus url links = Except.ok r) :
    runCanonicalChecksV2 fetchPage fetchStatus url = ⟨url, r.1, renderExplanation r.2⟩ := by
  unfold runCanonicalChecksV2
  rw [hfp]
  dsimp only
  rw [hcb]

theorem checkBody_eval (fetchStatus : String → Except String Nat)
    (url hrefStr c : String) (link : CanonicalLink) (rest : List CanonicalLink)
    (pu pc : UrlParts)
    (hhref : link.href = some hrefStr) (hne : hrefStr ≠ "")
    (hres : resolveUrl hrefStr url = Except.ok c)
    (hpu : parseUrl url = some pu) (hpc : parseUrl c = some pc) :
    checkBody fetchStatus url (link :: rest) = Except.ok
      (addCheck (decide (c ≠ toLowerStr c)) "Canonical URL is not lowercase. "
      (addCheck (!(strStartsWith c "http://" || strStartsWith c "https://"))
        "Canonical URL is not absolute. "
      (addCheck (decide (pu.scheme ++ ":" ≠ pc.scheme ++ ":"))
        "Canonical URL uses a different protocol. "
      (addCheck (decide (pu.host ≠ pc.host)) "Canonical URL uses a different domain. "
      (match fetchStatus c with
        | Except.ok code =>
          addCheck (decide (code ∈ [301, 302, 307, 308])) "Canonical URL is redirecting. "
            (addCheck (decide (code ≠ 200))
              ("Canonical URL returned status " ++ toString code ++ ". ")
              (addCheck (!link.inHead) "Canonical tag is not in the head section. "
                (addCheck (decide ((link :: rest).length > 1))
                  "Multiple canonical tags detected. " (Status.OK, ""))))
        | Except.error msg =>
          (Status.FAIL, (addCheck (!link.inHead) "Canonical tag is not in the head section. "
            (addCheck (decide ((link :: rest).length > 1))
              "Multiple canonical tags detected. " (Status.OK, ""))).2
            ++ ("Error fetching canonical URL: " ++ msg ++ ". "))))))) := by
  simp only [checkBody, hhref, Option.getD_some]
  rw [if_neg hne, hres]
  dsimp only
  unfold urlHostname urlProtocol
  rw [hpu, hpc]

/-- C5: when the canonical-target fetch returns 301 (or 302, 307, 308),
the evaluator appends both the bad-status reason carrying the code and
the redirecting reason: the two checks are independent and both fire. -/
theorem redirect_fires_both_reasons
    (fetchPage : String → Except String (List CanonicalLink))
    (fetchStatus : String → Except String Nat) (url hrefStr c : String)
    (link : CanonicalLink) (code : Nat)
    (hfp : fetchPage url = Except.ok [link])
    (hhref : link.href = some hrefStr) (hne : hrefStr ≠ "")
    (hres : resolveUrl hrefStr url = Except.ok c)
    (hfs : fetchStatus c = Except.ok code)
    (hcode : code ∈ [301, 302, 307, 308])
    (hup : (parseUrl url).isSome = true) :
    (runCanonicalChecks fetchPage fetchStatus url).status = Status.FAIL ∧
    ("Canonical URL returned status " ++ toString code ++ ".").data <:+:
      (runCanonicalChecks fetchPage fetchStatus url).explanation.data ∧
    ("Canonical URL is redirecting." : String).data <:+:
      (runCanonicalChecks fetchPage fetchStatus url).explanation.data := by
  obtain ⟨pu, hpu⟩ := Option.isSome_iff_exists.mp hup
  obtain ⟨pc, hpc⟩ := resolveUrl_ok_parse hrefStr url c hres
  have hcb := checkBody_eval fetchStatus url hrefStr c link [] pu pc hhref hne hres hpu hpc
  rw [hfs] at hcb
  dsimp only at hcb
  have hc200 : decide (code ≠ 200) = true := by
    apply decide_eq_true
    fin_cases hcode <;> decide
  have hcR : decide (code ∈ [301, 302, 307, 308]) = true := decide_eq_true hcode
  rw [hc200, hcR] at hcb
  rw [runCanonicalChecks_ok fetchPage fetchStatus url [link] _ hfp hcb]
  -- abbreviations
  have e1 : ((". " : String)).data = ['.', ' '] := rfl
  have e2 : (("." : String)).data = ['.'] := rfl
  -- the accumulator up to the head check
  have h1 : ("Canonical URL returned status " ++ toString code ++ ".").data <:+:
      (addCheck true ("Canonical URL returned status " ++ toString code ++ ". ")
        (addCheck (!link.inHead) "Canonical tag is not in the head section. "
          (addCheck (decide (([link] : List CanonicalLink).length > 1))
            "Multiple canonical tags detected. " (Status.OK, "")))).2.data := by
    refine ⟨(addCheck (!link.inHead) "Canonical tag is not in the head section. "
      (addCheck (decide (([link] : List CanonicalLink).length > 1))
        "Multiple canonical tags detected. " (Status.OK, ""))).2.data, [' '], ?_⟩
    simp [addCheck, strData_append, List.append_assoc]
  have h2 : ("Canonical URL is redirecting." : String).data <:+:
      (addCheck true "Canonical URL is redirecting. "
        (addCheck true ("Canonical URL returned status " ++ toString code ++ ". ")
          (addCheck (!link.inHead) "Canonical tag is not in the head section. "
            (addCheck (decide (([link] : List CanonicalLink).length > 1))
              "Multiple canonical tags detected. " (Status.OK, ""))))).2.data := by
    refine ⟨(addCheck true ("Canonical URL returned status " ++ toString code ++ ". ")
      (addCheck (!link.inHead) "Canonical tag is not in the head section. "
        (addCheck (decide (([link] : List CanonicalLink).length > 1))
          "Multiple canonical tags detected. " (Status.OK, "")))).2.data, [' '], ?_⟩
    simp [addCheck, strData_append, List.append_assoc]
  have h1f := addCheck_snd_mid _ (decide (c ≠ toLowerStr c)) "Canonical URL is not lowercase. " _
    (addCheck_snd_mid _ (!(strStartsWith c "http://" || strStartsWith c "https://"))
      "Canonical URL is not absolute. " _
      (addCheck_snd_mid _ (decide (pu.scheme ++ ":" ≠ pc.scheme ++ ":"))
        "Canonical URL uses a different protocol. " _
        (addCheck_snd_mid _ (decide (pu.host ≠ pc.host))
          "Canonical URL uses a different domain. " _
          (addCheck_snd_mid _ true "Canonical URL is redirecting. " _ h1))))
  have h2f := addCheck_snd_mid _ (decide (c ≠ toLowerStr c)) "Canonical URL is not lowercase. " _
    (addCheck_snd_mid _ (!(strStartsWith c "http://" || strStartsWith c "https://"))
      "Canonical URL is not absolute. " _
      (addCheck_snd_mid _ (decide (pu.scheme ++ ":" ≠ pc.scheme ++ ":"))
        "Canonical URL uses a different protocol. " _
        (addCheck_snd_mid _ (decide (pu.host ≠ pc.host))
          "Canonical URL uses a different domain. " _ h2)))
  have hst : (addCheck (decide (c ≠ toLowerStr c)) "Canonical URL is not lowercase. "
      (addCheck (!(strStartsWith c "http://" || strStartsWith c "https://"))
        "Canonical URL is not absolute. "
      (addCheck (decide (pu.scheme ++ ":" ≠ pc.scheme ++ ":"))
        "Canonical URL uses a different protocol. "
      (addCheck (decide (pu.host ≠ pc.host)) "Canonical URL uses a different domain. "
      (addCheck true "Canonical URL is redirecting. "
      (addCheck true ("Canonical URL returned status " ++ toString code ++ ". ")
      (addCheck (!link.inHead) "Canonical tag is not in the head section. "
      (addCheck (decide (([link] : List CanonicalLink).length > 1))
        "Multiple canonical tags detected. " (Status.OK, ""))))))))).1 = Status.FAIL :=
    addCheck_fst_fail _ _ _ (addCheck_fst_fail _ _ _ (addCheck_fst_fail _ _ _
      (addCheck_fst_fail _ _ _ rfl)))
  have hp1head : ("Canonical URL returned status " ++ toString code ++ ".").data.head?
      = some 'C' := rfl
  have hp1last : ("Canonical URL returned status " ++ toString code ++ ".").data.getLast?
      = some '.' := by
    rw [strData_append, List.getLast?_append_of_ne_nil _ (by decide : ("." : String).data ≠ [])]
    rfl
  have hp1ne : ("Canonical URL returned status " ++ toString code ++ ".").data ≠ [] := by
    intro h0
    rw [h0] at hp1head
    exact Option.noConfusion hp1head
  have hhead1 : ∀ d, ("Canonical URL returned status " ++ toString code ++ ".").data.head?
      = some d → isWs d = false := by
    intro d hd
    rw [hp1head] at hd
    injection hd with hd
    rw [← hd]
    decide
  have hlast1 : ∀ d, ("Canonical URL returned status " ++ toString code ++ ".").data.getLast?
      = some d → isWs d = false := by
    intro d hd
    rw [hp1last] at hd
    injection hd with hd
    rw [← hd]
    decide
  have hne2 : trimStr (addCheck (decide (c ≠ toLowerStr c)) "Canonical URL is not lowercase. "
      (addCheck (!(strStartsWith c "http://" || strStartsWith c "https://"))
        "Canonical URL is not absolute. "
      (addCheck (decide (pu.scheme ++ ":" ≠ pc.scheme ++ ":"))
        "Canonical URL uses a different protocol. "
      (addCheck (decide (pu.host ≠ pc.host)) "Canonical URL uses a different domain. "
      (addCheck true "Canonical URL is redirecting. "
      (addCheck true ("Canonical URL returned status " ++ toString code ++ ". ")
      (addCheck (!link.inHead) "Canonical tag is not in the head section. "
      (addCheck (decide (([link] : List CanonicalLink).length > 1))
        "Multiple canonical tags detected. " (Status.OK, ""))))))))).2 ≠ "" := by
    intro h0
    have h3 := infix_trim _ hp1ne hhead1 hlast1 _ h1f
    rw [h0] at h3
    have h4 : ("Canonical URL returned status " ++ toString code ++ ".").data = [] := by
      simpa using h3
    exact hp1ne h4
  refine ⟨hst, ?_, ?_⟩
  · show _ <:+: (renderExplanation _).data
    unfold renderExplanation
    rw [if_neg hne2]
    exact infix_trim _ hp1ne hhead1 hlast1 _ h1f
  · show _ <:+: (renderExplanation _).data
    unfold renderExplanation
    rw [if_neg hne2]
    refine infix_trim _ (by decide) ?_ ?_ _ h2f
    · intro d hd
      have h5 : ("Canonical URL is redirecting." : String).data.head? = some 'C' := rfl
      rw [h5] at hd
      injection hd with hd
      rw [← hd]
      decide
    · intro d hd
      have h5 : ("Canonical URL is redirecting." : String).data.getLast? = some '.' := by decide
      rw [h5] at hd
      injection hd with hd
      rw [← hd]
      decide

/-- C6: a page document with zero canonical link elements yields status
FAIL with the missing-tag reason as the only reason; every
href-dependent check is skipped. -/
theorem missing_canonical_exact_result
    (fetchPage : String → Except String (List CanonicalLink))
    (fetchStatus : String → Except String Nat) (url : String)
    (h : fetchPage url = Except.ok []) :
    runCanonicalChecks fetchPage fetchStatus url
      = ⟨url, Status.FAIL, "Canonical tag is missing."⟩ := by
  have hcb : checkBody fetchStatus url []
      = Except.ok (Status.FAIL, "Canonical tag is missing. ") := rfl
  rw [runCanonicalChecks_ok fetchPage fetchStatus url [] _ h hcb]
  have h2 : renderExplanation "Canonical tag is missing. "
      = "Canonical tag is missing." := by decide
  rw [h2]

theorem missing_canonical_exact_result_witness :
    runCanonicalChecks (fun _ => Except.ok []) (fun _ => Except.ok 200)
      "https://example.com/a"
      = ⟨"https://example.com/a", Status.FAIL, "Canonical tag is missing."⟩ :=
  missing_canonical_exact_result _ _ _ rfl

theorem explanation_infix (fetchPage : String → Except String (List CanonicalLink))
    (fetchStatus : String → Except String Nat) (url : String)
    (links : List CanonicalLink) (r : Status × String) (pat : String)
    (hfp : fetchPage url = Except.ok links)
    (hcb : checkBody fetchStatus url links = Except.ok r)
    (hinf : pat.data <:+: r.2.data) (hpne : pat.data ≠ [])
    (hh : ∀ d, pat.data.head? = some d → isWs d = false)
    (hl : ∀ d, pat.data.getLast? = some d → isWs d = false) :
    pat.data <:+: (runCanonicalChecks fetchPage fetchStatus url).explanation.data := by
  rw [runCanonicalChecks_ok _ _ _ _ _ hfp hcb]
  show pat.data <:+: (renderExplanation r.2).data
  have htr := infix_trim _ hpne hh hl _ hinf
  have hne2 : trimStr r.2 ≠ "" := by
    intro h0
    rw [h0] at htr
    exact hpne (by simpa using htr)
  unfold renderExplanation
  rw [if_neg hne2]
  exact htr

theorem status_fail_of_checkBody (fetchPage : String → Except String (List CanonicalLink))
    (fetchStatus : String → Except String Nat) (url : String)
    (links : List CanonicalLink) (r : Status × String)
    (hfp : fetchPage url = Except.ok links)
    (hcb : checkBody fetchStatus url links = Except.ok r)
    (h1 : r.1 = Status.FAIL) :
    (runCanonicalChecks fetchPage fetchStatus url).status = Status.FAIL := by
  rw [runCanonicalChecks_ok _ _ _ _ _ hfp hcb]
  exact h1

theorem runAudit_all_ok (w : AuditWorld) (sitemapUrls : List String)
    (h : ∀ s ∈ sitemapUrls, (∃ d, urlHostname s = Except.ok d) ∧
      (∃ urls, w.fetchSitemap s = Except.ok urls)) :
    (runAudit w sitemapUrls).1.length = sitemapUrls.length ∧
      ∃ t, (runAudit w sitemapUrls).2 = Except.ok t := by
  induction sitemapUrls with
  | nil => exact ⟨rfl, ⟨(0, 0, 0), rfl⟩⟩
  | cons s rest ih =>
    obtain ⟨⟨d, hd⟩, ⟨urls, hu⟩⟩ := h s (List.mem_cons_self s rest)
    have ih2 := ih (fun x hx => h x (List.mem_cons_of_mem _ hx))
    obtain ⟨t, ht⟩ := ih2.2
    obtain ⟨a, b, cc⟩ := t
    unfold runAudit
    rw [hd, hu]
    dsimp only
    rw [ht]
    constructor
    · simp only [List.length_cons, ih2.1]
    · exact ⟨_, rfl⟩

/-- C3: a network or parse failure during one page's check is caught
and converted into a single FAIL row carrying the underlying message —
page-level for a failed page fetch, reason-level for a failed
canonical-target fetch — and the audit itself still produces one report
per sitemap with all rows present, whatever the page-level oracles do. -/
theorem page_error_single_fail :
    (∀ (fetchPage : String → Except String (List CanonicalLink))
      (fetchStatus : String → Except String Nat) (url msg : String),
      fetchPage url = Except.error msg →
      runCanonicalChecks fetchPage fetchStatus url
        = ⟨url, Status.FAIL, "Fetch error: " ++ msg⟩) ∧
    (∀ (fetchPage : String → Except String (List CanonicalLink))
      (fetchStatus : String → Except String Nat) (url hrefStr c msg : String)
      (link : CanonicalLink),
      fetchPage url = Except.ok [link] →
      link.href = some hrefStr → hrefStr ≠ "" →
      resolveUrl hrefStr url = Except.ok c →
      fetchStatus c = Except.error msg →
      (parseUrl url).isSome = true →
      (runCanonicalChecks fetchPage fetchStatus url).status = Status.FAIL ∧
      ("Error fetching canonical URL: " ++ msg ++ ".").data <:+:
        (runCanonicalChecks fetchPage fetchStatus url).explanation.data) ∧
    (∀ (w : AuditWorld) (sitemapUrls : List String),
      (∀ s ∈ sitemapUrls, (∃ d, urlHostname s = Except.ok d) ∧
        (∃ urls, w.fetchSitemap s = Except.ok urls)) →
      (runAudit w sitemapUrls).1.length = sitemapUrls.length ∧
        ∃ t, (runAudit w sitemapUrls).2 = Except.ok t) := by
  refine ⟨?_, ?_, runAudit_all_ok⟩
  · intro fetchPage fetchStatus url msg h
    unfold runCanonicalChecks
    rw [h]
  · intro fetchPage fetchStatus url hrefStr c msg link hfp hhref hne hres hfs hup
    obtain ⟨pu, hpu⟩ := Option.isSome_iff_exists.mp hup
    obtain ⟨pc, hpc⟩ := resolveUrl_ok_parse hrefStr url c hres
    have hcb := checkBody_eval fetchStatus url hrefStr c link [] pu pc hhref hne hres hpu hpc
    rw [hfs] at hcb
    dsimp only at hcb
    have hbase : ("Error fetching canonical URL: " ++ msg ++ ".").data <:+:
        ((Status.FAIL, (addCheck (!link.inHead) "Canonical tag is not in the head section. "
          (addCheck (decide (([link] : List CanonicalLink).length > 1))
            "Multiple canonical tags detected. " (Status.OK, ""))).2
          ++ ("Error fetching canonical URL: " ++ msg ++ ". ")) : Status × String).2.data := by
      refine ⟨(addCheck (!link.inHead) "Canonical tag is not in the head section. "
        (addCheck (decide (([link] : List CanonicalLink).length > 1))
          "Multiple canonical tags detected. " (Status.OK, ""))).2.data, [' '], ?_⟩
      simp [strData_append, List.append_assoc]
    have hinf := addCheck_snd_mid _ (decide (c ≠ toLowerStr c))
      "Canonical URL is not lowercase. " _
      (addCheck_snd_mid _ (!(strStartsWith c "http://" || strStartsWith c "https://"))
        "Canonical URL is not absolute. " _
        (addCheck_snd_mid _ (decide (pu.scheme ++ ":" ≠ pc.scheme ++ ":"))
          "Canonical URL uses a different protocol. " _
          (addCheck_snd_mid _ (decide (pu.host ≠ pc.host))
            "Canonical URL uses a different domain. " _ hbase)))
    have hphead : ("Error fetching canonical URL: " ++ msg ++ ".").data.head?
        = some 'E' := rfl
    have hplast : ("Error fetching canonical URL: " ++ msg ++ ".").data.getLast?
        = some '.' := by
      rw [strData_append, List.getLast?_append_of_ne_nil _ (by decide : ("." : String).data ≠ [])]
      rfl
    have hpne : ("Error fetching canonical URL: " ++ msg ++ ".").data ≠ [] := by
      intro h0
      rw [h0] at hphead
      exact Option.noConfusion hphead
    refine ⟨?_, ?_⟩
    · exact status_fail_of_checkBody _ _ _ _ _ hfp hcb
        (addCheck_fst_fail _ _ _ (addCheck_fst_fail _ _ _ (addCheck_fst_fail _ _ _
          (addCheck_fst_fail _ _ _ rfl))))
    · refine explanation_infix _ _ _ _ _ _ hfp hcb hinf hpne ?_ ?_
      · intro d hd
        rw [hphead] at hd
        injection hd with hd
        rw [← hd]
        decide
      · intro d hd
        rw [hplast] at hd
        injection hd with hd
        rw [← hd]
        decide

theorem checkBodyV2_eval (fetchStatus : String → Except String Nat)
    (url hrefStr c : String) (link : CanonicalLink) (rest : List CanonicalLink)
    (pu pc : UrlParts)
    (hhref : link.href = some hrefStr) (hne : hrefStr ≠ "")
    (hres : resolveUrl hrefStr url = Except.ok c)
    (hpu : parseUrl url = some pu) (hpc : parseUrl c = some pc) :
    checkBodyV2 fetchStatus url (link :: rest) = Except.ok
      (addCheck (decide (c ≠ toLowerStr c)) "Canonical URL is not lowercase. "
      (addCheck (decide (pu.scheme ++ ":" ≠ pc.scheme ++ ":"))
        "Canonical URL uses a different protocol. "
      (addCheck (decide (pu.host ≠ pc.host)) "Canonical URL uses a different domain. "
      (addCheck (!(strStartsWith c "http://" || strStartsWith c "https://"))
        "Canonical URL is not absolute. "
      (addCheck (decide (c ≠ url)) "Canonical URL does not reference itself. "
      (match fetchStatus c with
        | Except.ok code =>
          addCheck (decide (code ∈ [301, 302, 307, 308])) "Canonical URL is redirecting. "
            (addCheck (decide (code ≠ 200))
              ("Canonical URL returned status " ++ toString code ++ ". ")
              (addCheck (!link.inHead) "Canonical tag is not in the head section. "
                (addCheck (decide ((link :: rest).length > 1))
                  "Multiple canonical tags detected. " (Status.OK, ""))))
        | Except.error msg =>
          (Status.FAIL, (addCheck (!link.inHead) "Canonical tag is not in the head section. "
            (addCheck (decide ((link :: rest).length > 1))
              "Multiple canonical tags detected. " (Status.OK, ""))).2
            ++ ("Error fetching canonical URL: " ++ msg ++ ". ")))))))) := by
  simp only [checkBodyV2, hhref, Option.getD_some]
  rw [if_neg hne, hres]
  dsimp only
  unfold urlHostname urlProtocol
  rw [hpu, hpc]

/-- C9 counterexample: a syntactically valid, same-domain, same-protocol,
lowercase canonical that differs from the page URL is accepted by the
evaluator in canonical.js (status OK) and rejected by the variant
evaluator (self-reference failure) — with identical inputs and no
configuration anywhere that could select between the two policies. -/
theorem self_reference_policy_counterexample :
    runCanonicalChecks (fun _ => Except.ok [⟨some "https://example.com/b", true⟩])
      (fun _ => Except.ok 200) "https://example.com/a"
      = ⟨"https://example.com/a", Status.OK, "No errors"⟩ ∧
    runCanonicalChecksV2 (fun _ => Except.ok [⟨some "https://example.com/b", true⟩])
      (fun _ => Except.ok 200) "https://example.com/a"
      = ⟨"https://example.com/a", Status.FAIL,
          "Canonical URL does not reference itself."⟩ := by
  refine ⟨?_, ?_⟩ <;> rfl

theorem addCheck_false (ph : String) (acc : Status × String) :
    addCheck false ph acc = acc := rfl

/-- C9 corrected: no configuration flag selects the self-reference
policy — each evaluator hard-codes one.  On any otherwise fully valid
canonical target that differs from the page URL, the shipped evaluator
answers OK with no reasons while the variant evaluator answers FAIL
with the self-reference reason. -/
theorem self_reference_policy_amended
    (fetchPage : String → Except String (List CanonicalLink))
    (fetchStatus : String → Except String Nat) (url hrefStr c : String)
    (link : CanonicalLink) (pu pc : UrlParts)
    (hfp : fetchPage url = Except.ok [link])
    (hhref : link.href = some hrefStr) (hne : hrefStr ≠ "")
    (hres : resolveUrl hrefStr url = Except.ok c)
    (hfs : fetchStatus c = Except.ok 200)
    (hhead : link.inHead = true)
    (hpu : parseUrl url = some pu) (hpc : parseUrl c = some pc)
    (hhost : pu.host = pc.host) (hprot : pu.scheme = pc.scheme)
    (habs : (strStartsWith c "http://" || strStartsWith c "https://") = true)
    (hlow : toLowerStr c = c) (hneq : c ≠ url) :
    runCanonicalChecks fetchPage fetchStatus url = ⟨url, Status.OK, "No errors"⟩ ∧
    runCanonicalChecksV2 fetchPage fetchStatus url
      = ⟨url, Status.FAIL, "Canonical URL does not reference itself."⟩ := by
  have hcb := checkBody_eval fetchStatus url hrefStr c link [] pu pc hhref hne hres hpu hpc
  have hcb2 := checkBodyV2_eval fetchStatus url hrefStr c link [] pu pc hhref hne hres hpu hpc
  rw [hfs] at hcb hcb2
  dsimp only at hcb hcb2
  have b1 : decide ((200 : Nat) ≠ 200) = false := by decide
  have b2 : decide ((200 : Nat) ∈ [301, 302, 307, 308]) = false := by decide
  have b3 : decide (([link] : List CanonicalLink).length > 1) = false := rfl
  have b4 : (!link.inHead) = false := by rw [hhead]; rfl
  have b5 : decide (pu.host ≠ pc.host) = false := by rw [hhost]; simp
  have b6 : decide (pu.scheme ++ ":" ≠ pc.scheme ++ ":") = false := by rw [hprot]; simp
  have b7 : (!(strStartsWith c "http://" || strStartsWith c "https://")) = false := by
    rw [habs]
    rfl
  have b8 : decide (c ≠ toLowerStr c) = false := by rw [hlow]; simp
  have b9 : decide (c ≠ url) = true := decide_eq_true hneq
  rw [b1, b2, b3, b4, b5, b6, b7, b8] at hcb
  simp only [addCheck_false] at hcb
  rw [b1, b2, b3, b4, b5, b6, b7, b8, b9] at hcb2
  simp only [addCheck_false] at hcb2
  refine ⟨?_, ?_⟩
  · rw [runCanonicalChecks_ok _ _ _ _ _ hfp hcb]
    rfl
  · rw [runCanonicalChecksV2_ok _ _ _ _ _ hfp hcb2]
    rfl

theorem self_reference_policy_amended_witness :
    runCanonicalChecks (fun _ => Except.ok [⟨some "https://example.com/b", true⟩])
      (fun _ => Except.ok 200) "https://example.com/a"
      = ⟨"https://example.com/a", Status.OK, "No errors"⟩ ∧
    runCanonicalChecksV2 (fun _ => Except.ok [⟨some "https://example.com/b", true⟩])
      (fun _ => Except.ok 200) "https://example.com/a"
      = ⟨"https://example.com/a", Status.FAIL,
          "Canonical URL does not reference itself."⟩ :=
  self_reference_policy_amended _ _ "https://example.com/a" "https://example.com/b"
    "https://example.com/b" ⟨some "https://example.com/b", true⟩
    ⟨"https", "example.com", none, "/a", none, none⟩
    ⟨"https", "example.com", none, "/b", none, none⟩
    rfl rfl (by decide) rfl rfl rfl (by decide) (by decide) rfl rfl
    (by decide) (by decide) (by decide)

theorem redirect_fires_both_reasons_witness :
    (runCanonicalChecks (fun _ => Except.ok [⟨some "https://example.com/b", true⟩])
      (fun _ => Except.ok 301) "https://example.com/a").status = Status.FAIL ∧
    ("Canonical URL returned status " ++ toString 301 ++ ".").data <:+:
      (runCanonicalChecks (fun _ => Except.ok [⟨some "https://example.com/b", true⟩])
        (fun _ => Except.ok 301) "https://example.com/a").explanation.data ∧
    ("Canonical URL is redirecting." : String).data <:+:
      (runCanonicalChecks (fun _ => Except.ok [⟨some "https://example.com/b", true⟩])
        (fun _ => Except.ok 301) "https://example.com/a").explanation.data :=
  redirect_fires_both_reasons _ _ "https://example.com/a" "https://example.com/b"
    "https://example.com/b" ⟨some "https://example.com/b", true⟩ 301
    rfl rfl (by decide) rfl rfl (by decide) rfl

theorem page_error_single_fail_witness :
    runCanonicalChecks (fun _ => Except.error "boom") (fun _ => Except.ok 200)
        "https://example.com/a"
      = ⟨"https://example.com/a", Status.FAIL, "Fetch error: " ++ "boom"⟩ ∧
    ((runCanonicalChecks (fun _ => Except.ok [⟨some "https://example.com/b", true⟩])
        (fun _ => Except.error "down") "https://example.com/a").status = Status.FAIL ∧
      ("Error fetching canonical URL: " ++ "down" ++ ".").data <:+:
        (runCanonicalChecks (fun _ => Except.ok [⟨some "https://example.com/b", true⟩])
          (fun _ => Except.error "down") "https://example.com/a").explanation.data) ∧
    ((runAudit
        ⟨fun _ => Except.ok ["https://example.com/a"],
         fun _ => Except.ok [⟨some "https://example.com/a", true⟩],
         fun _ => Except.ok 200⟩
        ["https://example.com/sitemap.xml"]).1.length = 1 ∧
      ∃ t, (runAudit
        ⟨fun _ => Except.ok ["https://example.com/a"],
         fun _ => Except.ok [⟨some "https://example.com/a", true⟩],
         fun _ => Except.ok 200⟩
        ["https://example.com/sitemap.xml"]).2 = Except.ok t) :=
  ⟨page_error_single_fail.1 _ _ "https://example.com/a" "boom" rfl,
   page_error_single_fail.2.1 _ _ "https://example.com/a" "https://example.com/b"
     "https://example.com/b" "down" ⟨some "https://example.com/b", true⟩
     rfl rfl (by decide) rfl rfl rfl,
   page_error_single_fail.2.2 _ _
     (by
       intro s hs
       rcases List.mem_singleton.mp hs with rfl
       exact ⟨⟨"example.com", rfl⟩, ⟨["https://example.com/a"], rfl⟩⟩)⟩

/-- C1 counterexample: with two configured sitemaps where only the
first one fails to load, `runAudit` writes no report at all — the
second, perfectly loadable sitemap is never processed, contradicting
the claim that a sitemap load failure does not prevent the remaining
sitemaps from being audited. -/
theorem sitemap_error_aborts_run_counterexample :
    (AuditWorld.fetchSitemap
        ⟨fun s => if s = "https://b.example/sitemap.xml"
            then Except.ok ["https://b.example/page"]
            else Except.error "network down",
          fun _ => Except.ok [⟨some "https://b.example/page", true⟩],
          fun _ => Except.ok 200⟩
        "https://b.example/sitemap.xml"
      = Except.ok ["https://b.example/page"]) ∧
    (runAudit
        ⟨fun s => if s = "https://b.example/sitemap.xml"
            then Except.ok ["https://b.example/page"]
            else Except.error "network down",
          fun _ => Except.ok [⟨some "https://b.example/page", true⟩],
          fun _ => Except.ok 200⟩
        ["https://a.example/sitemap.xml", "https://b.example/sitemap.xml"]).1
      = [] ∧
    (runAudit
        ⟨fun s => if s = "https://b.example/sitemap.xml"
            then Except.ok ["https://b.example/page"]
            else Except.error "network down",
          fun _ => Except.ok [⟨some "https://b.example/page", true⟩],
          fun _ => Except.ok 200⟩
        ["https://a.example/sitemap.xml", "https://b.example/sitemap.xml"]).2
      = Except.error "network down" :=
  ⟨rfl, rfl, rfl⟩

/-- C1 corrected: a sitemap whose load fails aborts the remaining run.
If every sitemap before `s` loads fine but `s` itself fails with `e`,
the audit writes exactly the reports of the prefix (one per earlier
sitemap), the grand total is the propagated error `e`, and nothing
after `s` is processed. -/
theorem sitemap_error_aborts_run_amended (w : AuditWorld)
    (pre : List String) (s : String) (post : List String) (e : String)
    (hpre : ∀ x ∈ pre, (∃ d, urlHostname x = Except.ok d) ∧
      (∃ urls, w.fetchSitemap x = Except.ok urls))
    (hs : ∃ d, urlHostname s = Except.ok d)
    (he : w.fetchSitemap s = Except.error e) :
    (runAudit w (pre ++ s :: post)).1 = (runAudit w pre).1 ∧
    (runAudit w (pre ++ s :: post)).2 = Except.error e ∧
    (runAudit w pre).1.length = pre.length := by
  induction pre with
  | nil =>
    obtain ⟨d, hd⟩ := hs
    refine ⟨?_, ?_, rfl⟩ <;>
      (simp only [List.nil_append]
       unfold runAudit
       rw [hd, he])
  | cons x rest ih =>
    obtain ⟨⟨d, hd⟩, ⟨urls, hu⟩⟩ := hpre x (List.mem_cons_self x rest)
    have ih2 := ih (fun y hy => hpre y (List.mem_cons_of_mem _ hy))
    rw [List.cons_append]
    refine ⟨?_, ?_, ?_⟩
    · show (runAudit w (x :: (rest ++ s :: post))).1 = (runAudit w (x :: rest)).1
      unfold runAudit
      rw [hd, hu]
      dsimp only
      rw [ih2.1]
    · show (runAudit w (x :: (rest ++ s :: post))).2 = Except.error e
      unfold runAudit
      rw [hd, hu]
      dsimp only
      rw [ih2.2.1]
    · show (runAudit w (x :: rest)).1.length = (x :: rest).length
      unfold runAudit
      rw [hd, hu]
      dsimp only
      rw [List.length_cons, ih2.2.2]
      rfl

theorem sitemap_error_aborts_run_amended_witness :
    ((∀ x ∈ (["https://ok.example/sitemap.xml"] : List String),
        (∃ d, urlHostname x = Except.ok d) ∧
        (∃ urls, AuditWorld.fetchSitemap
          ⟨fun s => if s = "https://bad.example/sitemap.xml"
              then Except.error "boom" else Except.ok [],
            fun _ => Except.ok [], fun _ => Except.ok 200⟩ x = Except.ok urls)) ∧
      (∃ d, urlHostname "https://bad.example/sitemap.xml" = Except.ok d) ∧
      AuditWorld.fetchSitemap
        ⟨fun s => if s = "https://bad.example/sitemap.xml"
            then Except.error "boom" else Except.ok [],
          fun _ => Except.ok [], fun _ => Except.ok 200⟩
        "https://bad.example/sitemap.xml" = Except.error "boom") ∧
    ((runAudit
        ⟨fun s => if s = "https://bad.example/sitemap.xml"
            then Except.error "boom" else Except.ok [],
          fun _ => Except.ok [], fun _ => Except.ok 200⟩
        (["https://ok.example/sitemap.xml"] ++
          "https://bad.example/sitemap.xml" :: ["https://late.example/sitemap.xml"])).1
      = (runAudit
        ⟨fun s => if s = "https://bad.example/sitemap.xml"
            then Except.error "boom" else Except.ok [],
          fun _ => Except.ok [], fun _ => Except.ok 200⟩
        ["https://ok.example/sitemap.xml"]).1 ∧
      (runAudit
        ⟨fun s => if s = "https://bad.example/sitemap.xml"
            then Except.error "boom" else Except.ok [],
          fun _ => Except.ok [], fun _ => Except.ok 200⟩
        (["https://ok.example/sitemap.xml"] ++
          "https://bad.example/sitemap.xml" :: ["https://late.example/sitemap.xml"])).2
      = Except.error "boom" ∧
      (runAudit
        ⟨fun s => if s = "https://bad.example/sitemap.xml"
            then Except.error "boom" else Except.ok [],
          fun _ => Except.ok [], fun _ => Except.ok 200⟩
        ["https://ok.example/sitemap.xml"]).1.length
      = (["https://ok.example/sitemap.xml"] : List String).length) :=
  ⟨⟨fun x hx => by
      rcases List.mem_singleton.mp hx with rfl
      exact ⟨⟨"ok.example", rfl⟩, ⟨[], rfl⟩⟩,
    ⟨"bad.example", rfl⟩, rfl⟩,
   sitemap_error_aborts_run_amended _ ["https://ok.example/sitemap.xml"]
     "https://bad.example/sitemap.xml" ["https://late.example/sitemap.xml"] "boom"
     (fun x hx => by
       rcases List.mem_singleton.mp hx with rfl
       exact ⟨⟨"ok.example", rfl⟩, ⟨[], rfl⟩⟩)
     ⟨"bad.example", rfl⟩ rfl⟩

/-- C4: the normalizer maps the spec's equivalence examples as claimed:
mixed case with a trailing slash normalizes to the same string as the
plain lowercase form, an explicit default port together with a `www.`
label is stripped, and the bare root slash is preserved. -/
theorem normalize_equivalence_examples :
    normalizeUrl "https://Example.com/Page/" = normalizeUrl "https://example.com/page" ∧
    normalizeUrl "https://www.example.com:443/x" = normalizeUrl "https://example.com/x" ∧
    normalizeUrl "https://example.com/" = "https://example.com/" := by
  refine ⟨?_, ?_, ?_⟩ <;> decide

/-- The spec's normalization pipeline on already-parsed components:
lowercase the reconstruction, strip the non-root trailing slash, strip
the default-port texts, strip the `www.` label, drop query and
fragment.  Stated separately from `normalizeUrl` so that the
pass-through/total contract can be phrased as a refinement. -/
def specNormalizeParsed (p : UrlParts) : String :=
  takeBefore '#' (takeBefore '?'
    (strReplaceFirst (strReplaceFirst (strReplaceFirst
      (if endsWithSlash (toLowerStr (serializeUrl p)) && p.path ≠ "/"
        then dropLastStr (toLowerStr (serializeUrl p))
        else toLowerStr (serializeUrl p))
      ":80/" "/") ":443/" "/") "://www." "://"))

/-- C8: `normalizeUrl` is total — an unparseable input is passed
through unchanged (the catch branch), and a parseable one is mapped to
the normalized form of its parsed components. -/
theorem normalize_total (u : String) :
    (parseUrl u = none → normalizeUrl u = u) ∧
    (∀ p, parseUrl u = some p → normalizeUrl u = specNormalizeParsed p) := by
  constructor
  · intro h
    unfold normalizeUrl
    rw [h]
  · intro p h
    unfold normalizeUrl specNormalizeParsed
    rw [h]

theorem normalize_total_witness :
    normalizeUrl "not a url" = "not a url" ∧
    normalizeUrl "https://example.com/a"
      = specNormalizeParsed ⟨"https", "example.com", none, "/a", none, none⟩ :=
  ⟨(normalize_total "not a url").1 rfl,
   (normalize_total "https://example.com/a").2
     ⟨"https", "example.com", none, "/a", none, none⟩ (by decide)⟩

/-- C10: the default-port strip is purely textual over the lowercased
serialized URL: it deletes the first occurrence of `":80/"` (resp.
`":443/"`) wherever it sits, including inside the path, and only the
first one; meanwhile the parser has already elided any genuine default
port, so the strip can only ever hit path text. -/
theorem port_strip_is_textual :
    (∀ s : String, strReplaceFirst s ":80/" "/"
      = ⟨deletePortFirst ['8', '0'] s.data⟩) ∧
    (∀ s : String, strReplaceFirst s ":443/" "/"
      = ⟨deletePortFirst ['4', '4', '3'] s.data⟩) ∧
    normalizeUrl "https://example.com/a:80/b" = "https://example.com/a/b" ∧
    normalizeUrl "http://example.com/x:443/y" = "http://example.com/x/y" ∧
    normalizeUrl "https://example.com/a:80/b:80/c" = "https://example.com/a/b:80/c" ∧
    normalizeUrl "https://example.com:443/x" = "https://example.com/x" ∧
    (∀ (u : String) (p : UrlParts) (n : Nat), parseUrl u = some p → p.port = some n →
      defaultPort p.scheme n = false) := by
  refine ⟨?_, ?_, by decide, by decide, by decide, by decide, ?_⟩
  · intro s
    exact congrArg String.mk (replaceFirstList_eq_deletePortFirst ['8', '0'] s.data)
  · intro s
    exact congrArg String.mk (replaceFirstList_eq_deletePortFirst ['4', '4', '3'] s.data)
  · intro u p n hu hp
    exact ((parseUrl_wf u p hu).port_ok n hp).2

theorem port_strip_is_textual_witness :
    strReplaceFirst "https://e/a:80/b" ":80/" "/"
      = ⟨deletePortFirst ['8', '0'] ("https://e/a:80/b" : String).data⟩ ∧
    strReplaceFirst "https://e/a:443/b" ":443/" "/"
      = ⟨deletePortFirst ['4', '4', '3'] ("https://e/a:443/b" : String).data⟩ ∧
    defaultPort "https" 8080 = false :=
  ⟨port_strip_is_textual.1 "https://e/a:80/b",
   port_strip_is_textual.2.1 "https://e/a:443/b",
   port_strip_is_textual.2.2.2.2.2.2 "https://example.com:8080/x"
     ⟨"https", "example.com", some 8080, "/x", none, none⟩ 8080 (by decide) rfl⟩

/-- C2 counterexample: idempotence fails on a query-bearing URL with a
trailing slash.  The first pass drops the query after the slash-strip
already ran, leaving a fresh trailing slash that only the second pass
removes, so the two passes disagree. -/
theorem normalize_idem_counterexample :
    normalizeUrl (normalizeUrl "https://example.com/a/?q=1")
      ≠ normalizeUrl "https://example.com/a/?q=1" := by decide

theorem normalize_idem_amended_witness :
    normalizeUrl (normalizeUrl "https://Example.com/Page/")
      = normalizeUrl "https://Example.com/Page/" :=
  normalize_idem_amended "https://Example.com/Page/"
    ⟨"https", "example.com", none, "/Page/", none, none⟩
    (by decide) rfl rfl (by decide) (by decide) (by decide) (by decide)
